import Mathlib

/-!
# DataSet LRQ client (`pkg/plugin/client.go`)

A shallow embedding of `doPingRequest`, its three wrappers and `DoFacetRequest`.

* The HTTP transport (`d.netClient`) is a script: the k-th call of
  `netClient.Do` receives the k-th outcome of the script.  A run records the
  requests handed to `netClient.Do` in order and what the function returns;
  when the script has no outcome left for a request that has been handed over,
  the run has no return value yet.
* `http.NewRequest` fails exactly when `url.Parse` rejects the URL; that
  verdict is a parameter (`urlErr`) of every definition.
* `json.Marshal` of the request value is a parameter (`marshal`).
* A response body is given by what `json.Unmarshal` finds in it for the fields
  of `LRQResult` (`Bytes`); `Unmarshal` writes the members found into the record
  it is handed and leaves the other fields as they are.
* Logging, `time.Sleep` and the draining/closing of response bodies have no
  effect on the requests sent or on the value returned and are left out.
-/

namespace Plugin

/-- Go `error` value; `timeout` is what `(*url.Error).Timeout()` answers for it. -/
structure GoError where
  msg : String
  timeout : Bool
deriving DecidableEq

/-- Result of a Go call that returns `(value, error)`. -/
inductive Res (α : Type) where
  | ok (a : α)
  | err (e : GoError)
deriving DecidableEq

/-- Go `http.Header`, with canonical keys, in order of insertion. -/
structure Header where
  entries : List (String × String)
deriving DecidableEq

/-- Go `Header.Get`: the first value stored under the key, the empty string when there is none. -/
def Header.Get (h : Header) (key : String) : String :=
  match h.entries.find? (fun kv => kv.1 == key) with
  | some kv => kv.2
  | none => ""

/-- Whether the header holds an entry under the key at all. -/
def Header.Has (h : Header) (key : String) : Bool :=
  h.entries.any (fun kv => kv.1 == key)

/-- Go `Header.Set`: replace whatever is stored under the key by the one value. -/
def Header.Set (h : Header) (key value : String) : Header :=
  ⟨h.entries.filter (fun kv => kv.1 != key) ++ [(key, value)]⟩

/-- Go `http.Request`, as far as the client fills it in. -/
structure Request where
  Method : String
  URL : String
  Hdr : Header
  Body : Option String
deriving DecidableEq

/-- The statement `request.Header.Set(key, value)`. -/
def Request.HeaderSet (request : Request) (key value : String) : Request :=
  { request with Hdr := request.Hdr.Set key value }

/-- Modelled from the spec: the declaration of `LRQResult` is not among the sources.  The spec
gives the result an opaque identifier, `stepsCompleted`, `stepsTotal` and the computed payload;
`client.go` reads the fields `Id`, `StepsCompleted` and `StepsTotal`.  The payload is kept as the
raw text of the `data` member, `none` while no response has carried one. -/
structure LRQResult where
  Id : String
  StepsCompleted : Int
  StepsTotal : Int
  Data : Option String
deriving DecidableEq

/-- The zero value `var respBody LRQResult`. -/
def LRQResult.zero : LRQResult := ⟨"", 0, 0, none⟩

/-- The bytes of a response body, as far as `json.Unmarshal` into an `LRQResult` tells them
apart: either bytes it rejects (not JSON, or a member whose value does not fit its field), or a
JSON object, given by the members it carries for the four fields (a member that is missing or
`null` is `none`). -/
inductive Bytes where
  | invalid
  | object (id : Option String) (stepsCompleted stepsTotal : Option Int) (data : Option String)
deriving DecidableEq

/-- The values of Go `int` (64 bits). -/
def fitsInt (n : Int) : Bool := decide (-(2 : Int) ^ 63 ≤ n) && decide (n < (2 : Int) ^ 63)

/-- The error of a failed `json.Unmarshal`. -/
def unmarshalError : GoError := ⟨"json: cannot unmarshal", false⟩

/-- Go `json.Unmarshal(respBytes, &respBody)` on a record that already holds values: a member
the object carries overwrites its field, every other field keeps what it held; a number outside
`int` is an error. -/
def Unmarshal (respBytes : Bytes) (respBody : LRQResult) : Res LRQResult :=
  match respBytes with
  | .invalid => .err unmarshalError
  | .object id stepsCompleted stepsTotal data =>
    if (stepsCompleted.all fitsInt && stepsTotal.all fitsInt) = true then
      .ok { Id := id.getD respBody.Id
            StepsCompleted := stepsCompleted.getD respBody.StepsCompleted
            StepsTotal := stepsTotal.getD respBody.StepsTotal
            Data := match data with
              | some v => some v
              | none => respBody.Data }
    else .err unmarshalError

/-- Go `http.Response`; `Body` is what `io.ReadAll(resp.Body)` yields. -/
structure Response where
  StatusCode : Int
  Hdr : Header
  Body : Res Bytes
deriving DecidableEq

/-- The fields of the client that the requests depend on; `netClient` is the script. -/
structure DataSetClient where
  dataSetUrl : String
  apiKey : String
deriving DecidableEq

/-- What a call did: the requests handed to `netClient.Do`, in order, and the value returned
(`none`: the script ended while the last request was awaiting its outcome). -/
structure Run (α : Type) where
  sent : List Request
  ret : Option α
deriving DecidableEq

/-- Put a request in front of what the rest of the call sends. -/
def Run.after {α : Type} (request : Request) (r : Run α) : Run α :=
  { r with sent := request :: r.sent }

/-- Put requests in front of what the rest of the call sends. -/
def Run.afterAll {α : Type} (l : List Request) (r : Run α) : Run α :=
  { r with sent := l ++ r.sent }

/-- Go `http.NewRequest(method, url, body)` for the methods used here: it fails exactly when
`url.Parse` rejects the URL (`urlErr url` is that error). -/
def NewRequest (urlErr : String → Option GoError) (method url : String) (body : Option String) :
    Res Request :=
  match urlErr url with
  | some e => .err e
  | none => .ok { Method := method, URL := url, Hdr := ⟨[]⟩, Body := body }

/-- The constant `TOKEN_HEADER`. -/
def TOKEN_HEADER : String := "X-Dataset-Query-Forward-Tag"

/-- The verb `%d` of `fmt.Sprintf`. -/
def fmtInt (n : Int) : String := toString n

/-- Lines 117-140 of `doPingRequest`: the DELETE request and the return of the result. -/
def doPingRequest_release (urlErr : String → Option GoError) (d : DataSetClient)
    (respBody : LRQResult) (token : String) (script : List (Res Response)) :
    Run (Res LRQResult) :=
  let u := d.dataSetUrl ++ "/v2/api/queries/" ++ respBody.Id
  match NewRequest urlErr "DELETE" u none with
  | .err _ => ⟨[], some (.ok respBody)⟩
  | .ok request =>
    let request := request.HeaderSet "Authorization" ("Bearer " ++ d.apiKey)
    let request := request.HeaderSet "Content-Type" "application/json"
    let request := if token != "" then request.HeaderSet TOKEN_HEADER token else request
    match script with
    | [] => ⟨[request], none⟩
    | .err _ :: _ => ⟨[request], some (.ok respBody)⟩
    | .ok _ :: _ => ⟨[request], some (.ok respBody)⟩

/-- Lines 70-115 of `doPingRequest`: the loop `for i := 0; ; i++`, entered with the request to
send, the record decoded so far and the token held; it ends in the release. -/
def doPingRequest_loop (urlErr : String → Option GoError) (d : DataSetClient) :
    List (Res Response) → Nat → Request → LRQResult → String → Run (Res LRQResult)
  | [], _, request, _, _ => ⟨[request], none⟩
  | .err e :: _, _, request, _, _ =>
    if e.timeout then ⟨[request], some (.err e)⟩ else ⟨[request], some (.err e)⟩
  | .ok resp :: script, i, request, respBody, token =>
    match resp.Body with
    | .err e => ⟨[request], some (.err e)⟩
    | .ok respBytes =>
      match Unmarshal respBytes respBody with
      | .err e => ⟨[request], some (.err e)⟩
      | .ok respBody =>
        if respBody.StepsCompleted ≥ respBody.StepsTotal then
          (doPingRequest_release urlErr d respBody token script).after request
        else
          let token := if i = 0 then resp.Hdr.Get TOKEN_HEADER else token
          let u := d.dataSetUrl ++ "/v2/api/queries/" ++ respBody.Id ++ "?lastStepSeen="
            ++ fmtInt respBody.StepsCompleted
          match NewRequest urlErr "GET" u none with
          | .err e => ⟨[request], some (.err e)⟩
          | .ok next =>
            let next := next.HeaderSet "Authorization" ("Bearer " ++ d.apiKey)
            let next := next.HeaderSet "Content-Type" "application/json"
            let next := if token != "" then next.HeaderSet TOKEN_HEADER token else next
            (doPingRequest_loop urlErr d script (i + 1) next respBody token).after request

/-- The function `doPingRequest`; `marshal` is `json.Marshal` on the type of `req`. -/
def doPingRequest {α : Type} (urlErr : String → Option GoError) (marshal : α → Res String)
    (d : DataSetClient) (script : List (Res Response)) (req : α) : Run (Res LRQResult) :=
  match marshal req with
  | .err e => ⟨[], some (.err e)⟩
  | .ok body =>
    match NewRequest urlErr "POST" (d.dataSetUrl ++ "/v2/api/queries") (some body) with
    | .err e => ⟨[], some (.err e)⟩
    | .ok request =>
      let request := request.HeaderSet "Authorization" ("Bearer " ++ d.apiKey)
      let request := request.HeaderSet "Content-Type" "application/json"
      doPingRequest_loop urlErr d script 0 request LRQResult.zero ""

/-- The method `DoLRQRequest`. -/
def DoLRQRequest {LRQRequest : Type} (urlErr : String → Option GoError)
    (marshal : LRQRequest → Res String) (d : DataSetClient) (script : List (Res Response))
    (req : LRQRequest) : Run (Res LRQResult) :=
  doPingRequest urlErr marshal d script req

/-- The method `DoFacetValuesRequest`. -/
def DoFacetValuesRequest {FacetQuery : Type} (urlErr : String → Option GoError)
    (marshal : FacetQuery → Res String) (d : DataSetClient) (script : List (Res Response))
    (req : FacetQuery) : Run (Res LRQResult) :=
  doPingRequest urlErr marshal d script req

/-- The method `DoTopFacetRequest`. -/
def DoTopFacetRequest {TopFacetRequest : Type} (urlErr : String → Option GoError)
    (marshal : TopFacetRequest → Res String) (d : DataSetClient) (script : List (Res Response))
    (req : TopFacetRequest) : Run (Res LRQResult) :=
  doPingRequest urlErr marshal d script req

/-- The type `FacetRequest`. -/
structure FacetRequest where
  QueryType : String
  MaxCount : Int
  Field : String
deriving DecidableEq

/-- The method `DoFacetRequest`; the pair returned is `(int, error)`. -/
def DoFacetRequest (urlErr : String → Option GoError) (marshal : FacetRequest → Res String)
    (d : DataSetClient) (script : List (Res Response)) (req : FacetRequest) :
    Run (Int × Option GoError) :=
  match marshal req with
  | .err e => ⟨[], some (0, some e)⟩
  | .ok body =>
    match NewRequest urlErr "POST" (d.dataSetUrl ++ "/api/facetQuery") (some body) with
    | .err e => ⟨[], some (0, some e)⟩
    | .ok request =>
      let request := request.HeaderSet "Authorization" ("Bearer " ++ d.apiKey)
      let request := request.HeaderSet "Content-Type" "application/json"
      match script with
      | [] => ⟨[request], none⟩
      | .err e :: _ => ⟨[request], some (0, some e)⟩
      | .ok resp :: _ =>
        match resp.Body with
        | .err e => ⟨[request], some (0, some e)⟩
        | .ok _ => ⟨[request], some (resp.StatusCode, none)⟩

/-! ## Fixtures for concrete runs -/

/-- The rule of `net/url` that `url.Parse` rejects a URL holding an ASCII control byte (a byte
below 0x20, or 0x7f); every other URL is accepted here. -/
def urlNoCTL (u : String) : Option GoError :=
  if u.toList.any (fun c => decide (c.toNat < 32) || decide (c.toNat = 127)) then
    some ⟨"net/url: invalid control character in URL", false⟩
  else none

/-- An encoder that returns the text it is given. -/
def marshalText : String → Res String := fun s => .ok s

/-- A client for the examples. -/
def client0 : DataSetClient := ⟨"https://h", "k"⟩

/-- A response with status 200 and a body that decodes to the given members. -/
def respOf (hdr : List (String × String)) (id : String) (sc st : Int) : Response :=
  ⟨200, ⟨hdr⟩, .ok (.object (some id) (some sc) (some st) none)⟩

/-! ## The wire contract in the spec's words -/

/-- The headers every call sets: bearer authorization and JSON content type. -/
def authorized (d : DataSetClient) (request : Request) : Request :=
  (request.HeaderSet "Authorization" ("Bearer " ++ d.apiKey)).HeaderSet
    "Content-Type" "application/json"

/-- The forward tag, if held. -/
def tagged (token : String) (request : Request) : Request :=
  if token != "" then request.HeaderSet TOKEN_HEADER token else request

/-- Submit: POST `/v2/api/queries`, body = request JSON. -/
def submitRequest (d : DataSetClient) (body : String) : Request :=
  authorized d ⟨"POST", d.dataSetUrl ++ "/v2/api/queries", ⟨[]⟩, some body⟩

/-- The address of a poll: `/v2/api/queries/{id}?lastStepSeen={n}`. -/
def pollURL (d : DataSetClient) (s : LRQResult) : String :=
  d.dataSetUrl ++ "/v2/api/queries/" ++ s.Id ++ "?lastStepSeen=" ++ fmtInt s.StepsCompleted

/-- Poll: GET, no body, forward tag if held. -/
def pollRequest (d : DataSetClient) (token : String) (s : LRQResult) : Request :=
  tagged token (authorized d ⟨"GET", pollURL d s, ⟨[]⟩, none⟩)

/-- The address of the release: `/v2/api/queries/{id}`. -/
def releaseURL (d : DataSetClient) (s : LRQResult) : String :=
  d.dataSetUrl ++ "/v2/api/queries/" ++ s.Id

/-- Release: DELETE, no body, forward tag if held. -/
def releaseRequest (d : DataSetClient) (token : String) (s : LRQResult) : Request :=
  tagged token (authorized d ⟨"DELETE", releaseURL d s, ⟨[]⟩, none⟩)

/-- Simple facet: POST `/api/facetQuery`. -/
def facetRequest (d : DataSetClient) (body : String) : Request :=
  authorized d ⟨"POST", d.dataSetUrl ++ "/api/facetQuery", ⟨[]⟩, some body⟩

/-- The completion predicate `stepsCompleted >= stepsTotal`. -/
def Complete (s : LRQResult) : Prop := s.StepsTotal ≤ s.StepsCompleted

instance (s : LRQResult) : Decidable (Complete s) := by unfold Complete; infer_instance

/-- The records held after each of the responses, when their bodies are read and decoded in
order into one record that starts as `s`; `none` when a body cannot be read or decoded. -/
def decodeSteps (s : LRQResult) : List Response → Option (List LRQResult)
  | [] => some []
  | r :: rs =>
    match r.Body with
    | .err _ => none
    | .ok b =>
      match Unmarshal b s with
      | .err _ => none
      | .ok s1 => (decodeSteps s1 rs).map (fun l => s1 :: l)

/-- The record held once all the responses are decoded (`s` when there is none). -/
def lastOf (s : LRQResult) (sts : List LRQResult) : LRQResult := sts.getLastD s

/-- The token held once the responses `rs` were taken by rounds `i, i+1, ..` that all went on
to poll: the tag of the first one if that round was round 0. -/
def tokenAfter (i : Nat) (token : String) (rs : List Response) : String :=
  match rs with
  | [] => token
  | r :: _ => if i = 0 then r.Hdr.Get TOKEN_HEADER else token

/-- The three request kinds that go through `doPingRequest`, run on one input. -/
def pollingKinds {α : Type} (urlErr : String → Option GoError) (marshal : α → Res String)
    (d : DataSetClient) (script : List (Res Response)) (req : α) : List (Run (Res LRQResult)) :=
  [DoLRQRequest urlErr marshal d script req, DoFacetValuesRequest urlErr marshal d script req,
    DoTopFacetRequest urlErr marshal d script req]

/-- Method and address of a request. -/
def wire (request : Request) : String × String := (request.Method, request.URL)

/-- The number of requests of a method among those sent. -/
def countMethod (method : String) (sent : List Request) : Nat :=
  (sent.filter (fun r => r.Method == method)).length

/-- The outcome `o` of a submit or poll call, taken while the record held is `s`, is a failure
with error `e`: a transport error, a body that cannot be read, or a body that does not
decode. -/
def FailsAt (s : LRQResult) (o : Res Response) (e : GoError) : Prop :=
  o = .err e ∨ (∃ resp, o = .ok resp ∧ resp.Body = .err e) ∨
    (∃ resp b, o = .ok resp ∧ resp.Body = .ok b ∧ Unmarshal b s = .err e)

/-- The request carries no forward-tag header. -/
def Untagged (request : Request) : Prop := request.Hdr.Has TOKEN_HEADER = false

/-- A response without headers whose body carries the id and both step counts. -/
def plainResponse (id : String) (sc st : Int) : Response := respOf [] id sc st

/-- The outcome with the status code of its response, if it has one, replaced. -/
def withStatus (c : Int) (o : Res Response) : Res Response :=
  match o with
  | .ok resp => .ok { resp with StatusCode := c }
  | .err e => .err e

/-! ## The record as the most recent value of each field -/

/-- The `id` member a body carries. -/
def memberId : Bytes → Option String
  | .invalid => none
  | .object id _ _ _ => id

/-- The `stepsCompleted` member a body carries. -/
def memberCompleted : Bytes → Option Int
  | .invalid => none
  | .object _ stepsCompleted _ _ => stepsCompleted

/-- The `stepsTotal` member a body carries. -/
def memberTotal : Bytes → Option Int
  | .invalid => none
  | .object _ _ stepsTotal _ => stepsTotal

/-- The payload member a body carries. -/
def memberData : Bytes → Option String
  | .invalid => none
  | .object _ _ _ data => data

/-- Among bodies in order of arrival, the value of a member in the most recent body that
carries it. -/
def latest {β : Type} (pick : Bytes → Option β) (bs : List Bytes) : Option β :=
  bs.reverse.findSome? pick

/-- The record in the claim's words: every field holds the value of the most recent body that
carried it, and the value of `s` when none did. -/
def heldAfter (s : LRQResult) (bs : List Bytes) : LRQResult :=
  { Id := (latest memberId bs).getD s.Id
    StepsCompleted := (latest memberCompleted bs).getD s.StepsCompleted
    StepsTotal := (latest memberTotal bs).getD s.StepsTotal
    Data := match latest memberData bs with
      | some v => some v
      | none => s.Data }

/-- The bodies of the responses that can be read. -/
def bodiesOf (rs : List Response) : List Bytes :=
  rs.filterMap (fun r => match r.Body with
    | .ok b => some b
    | .err _ => none)

/-! ## One round of the loop -/

theorem after_sent {α : Type} (request : Request) (r : Run α) :
    (r.after request).sent = request :: r.sent := rfl

theorem after_ret {α : Type} (request : Request) (r : Run α) :
    (r.after request).ret = r.ret := rfl

theorem after_mk {α : Type} (request : Request) (l : List Request) (o : Option α) :
    (Run.mk l o).after request = ⟨request :: l, o⟩ := rfl

/-- A round whose decoded record is incomplete sends the poll for that record next. -/
theorem loop_poll (urlErr : String → Option GoError) (d : DataSetClient)
    (resp : Response) (script : List (Res Response)) (i : Nat) (request : Request)
    (s s1 : LRQResult) (token : String) (b : Bytes)
    (hb : resp.Body = .ok b) (hu : Unmarshal b s = .ok s1) (hs : ¬ Complete s1)
    (hurl : urlErr (pollURL d s1) = none) :
    doPingRequest_loop urlErr d (.ok resp :: script) i request s token =
      (doPingRequest_loop urlErr d script (i + 1)
        (pollRequest d (tokenAfter i token [resp]) s1) s1
        (tokenAfter i token [resp])).after request := by
  have hs1 : ¬ (s1.StepsCompleted ≥ s1.StepsTotal) := hs
  have hurl1 : urlErr (d.dataSetUrl ++ "/v2/api/queries/" ++ s1.Id ++ "?lastStepSeen="
      ++ fmtInt s1.StepsCompleted) = none := hurl
  simp only [doPingRequest_loop, hb, hu, hs1, if_false, NewRequest, hurl1]
  rfl

/-- A round whose decoded record is complete goes on to the release. -/
theorem loop_done (urlErr : String → Option GoError) (d : DataSetClient)
    (resp : Response) (script : List (Res Response)) (i : Nat) (request : Request)
    (s s1 : LRQResult) (token : String) (b : Bytes)
    (hb : resp.Body = .ok b) (hu : Unmarshal b s = .ok s1) (hs : Complete s1) :
    doPingRequest_loop urlErr d (.ok resp :: script) i request s token =
      (doPingRequest_release urlErr d s1 token script).after request := by
  have hs1 : s1.StepsCompleted ≥ s1.StepsTotal := hs
  simp only [doPingRequest_loop, hb, hu, hs1, if_true]

/-- The release, when its request can be built and the transport answers at all. -/
theorem release_sent (urlErr : String → Option GoError) (d : DataSetClient)
    (s : LRQResult) (token : String) (o : Res Response) (script : List (Res Response))
    (hurl : urlErr (releaseURL d s) = none) :
    doPingRequest_release urlErr d s token (o :: script) =
      ⟨[releaseRequest d token s], some (.ok s)⟩ := by
  have hurl1 : urlErr (d.dataSetUrl ++ "/v2/api/queries/" ++ s.Id) = none := hurl
  cases o <;> simp only [doPingRequest_release, NewRequest, hurl1] <;> rfl

/-- The release, when its request cannot be built: nothing is sent. -/
theorem release_unbuilt (urlErr : String → Option GoError) (d : DataSetClient)
    (s : LRQResult) (token : String) (script : List (Res Response)) (e : GoError)
    (hurl : urlErr (releaseURL d s) = some e) :
    doPingRequest_release urlErr d s token script = ⟨[], some (.ok s)⟩ := by
  have hurl1 : urlErr (d.dataSetUrl ++ "/v2/api/queries/" ++ s.Id) = some e := hurl
  simp only [doPingRequest_release, NewRequest, hurl1]

/-! ## Several rounds -/

theorem afterAll_nil {α : Type} (r : Run α) : r.afterAll [] = r := rfl

theorem after_afterAll {α : Type} (request : Request) (l : List Request) (r : Run α) :
    (r.afterAll l).after request = r.afterAll (request :: l) := rfl

theorem afterAll_mk {α : Type} (l l1 : List Request) (o : Option α) :
    (Run.mk l1 o).afterAll l = ⟨l ++ l1, o⟩ := rfl

theorem dropLast_getLastD {β : Type} (x : β) (l : List β) :
    (x :: l).dropLast ++ [l.getLastD x] = x :: l := by
  induction l generalizing x with
  | nil => rfl
  | cons y l ih =>
    have h := ih y
    simp only [List.dropLast_cons₂, List.getLastD_cons, List.cons_append]
    rw [h]

theorem decodeSteps_cons {s : LRQResult} {r : Response} {rs : List Response}
    {sts : List LRQResult} (h : decodeSteps s (r :: rs) = some sts) :
    ∃ b s1 sts1, r.Body = .ok b ∧ Unmarshal b s = .ok s1 ∧ decodeSteps s1 rs = some sts1
      ∧ sts = s1 :: sts1 := by
  cases hb : r.Body with
  | err e => simp [decodeSteps, hb] at h
  | ok b =>
    cases hu : Unmarshal b s with
    | err e => simp [decodeSteps, hb, hu] at h
    | ok s1 =>
      cases hd : decodeSteps s1 rs with
      | none => simp [decodeSteps, hb, hu, hd] at h
      | some sts1 =>
        simp [decodeSteps, hb, hu, hd] at h
        exact ⟨b, s1, sts1, rfl, hu, hd, h.symm⟩

theorem decodeSteps_length {rs : List Response} :
    ∀ {s : LRQResult} {sts : List LRQResult}, decodeSteps s rs = some sts →
      sts.length = rs.length := by
  induction rs with
  | nil => intro s sts h; simp [decodeSteps] at h; simp [← h]
  | cons r rs ih =>
    intro s sts h
    obtain ⟨b, s1, sts1, _, _, hd, rfl⟩ := decodeSteps_cons h
    simp [ih hd]

theorem tokenAfter_succ (i : Nat) (token : String) (rs : List Response) :
    tokenAfter (i + 1) token rs = token := by
  cases rs <;> simp [tokenAfter]

/-- Rounds that all decode to an incomplete record whose poll can be built: the loop sends the
request it was entered with, then the poll for each record but the last, and is then at the
head of a later round with the poll for the last record in hand. -/
theorem loop_rounds (urlErr : String → Option GoError) (d : DataSetClient)
    (tail : List (Res Response)) :
    ∀ (rs : List Response) (sts : List LRQResult) (i : Nat) (request : Request)
      (s : LRQResult) (token : String),
      decodeSteps s rs = some sts →
      (∀ t ∈ sts, ¬ Complete t) →
      (∀ t ∈ sts, urlErr (pollURL d t) = none) →
      doPingRequest_loop urlErr d (rs.map Res.ok ++ tail) i request s token =
        (doPingRequest_loop urlErr d tail (i + rs.length)
          ((sts.map (pollRequest d (tokenAfter i token rs))).getLastD request)
          (lastOf s sts) (tokenAfter i token rs)).afterAll
          (request :: sts.map (pollRequest d (tokenAfter i token rs))).dropLast := by
  intro rs
  induction rs with
  | nil =>
    intro sts i request s token h _ _
    simp [decodeSteps] at h
    subst h
    simp [lastOf, tokenAfter, afterAll_nil]
  | cons r rs ih =>
    intro sts i request s token h hinc hurl
    obtain ⟨b, s1, sts1, hb, hu, hd, rfl⟩ := decodeSteps_cons h
    have h1 : ¬ Complete s1 := hinc s1 (List.mem_cons_self _ _)
    have h2 : urlErr (pollURL d s1) = none := hurl s1 (List.mem_cons_self _ _)
    have hstep := loop_poll urlErr d r (rs.map Res.ok ++ tail) i request s s1 token b hb hu h1 h2
    have hih := ih sts1 (i + 1) (pollRequest d (tokenAfter i token [r]) s1) s1
      (tokenAfter i token [r]) hd
      (fun t ht => hinc t (List.mem_cons_of_mem _ ht))
      (fun t ht => hurl t (List.mem_cons_of_mem _ ht))
    have htok : tokenAfter i token (r :: rs) = tokenAfter i token [r] := rfl
    rw [List.map_cons, List.cons_append, hstep, hih, tokenAfter_succ, htok, after_afterAll]
    have hlen : i + 1 + rs.length = i + (r :: rs).length := by
      simp only [List.length_cons]; omega
    have hlast : lastOf s1 sts1 = lastOf s (s1 :: sts1) := by
      unfold lastOf; rw [List.getLastD_cons]
    rw [hlen, hlast]
    simp only [List.map_cons, List.getLastD_cons, List.dropLast_cons₂]

theorem decodeSteps_append {rs : List Response} {last : Response} :
    ∀ {s : LRQResult} {l : List LRQResult}, decodeSteps s (rs ++ [last]) = some l →
      ∃ sts b fin, decodeSteps s rs = some sts ∧ last.Body = .ok b
        ∧ Unmarshal b (lastOf s sts) = .ok fin ∧ l = sts ++ [fin] := by
  induction rs with
  | nil =>
    intro s l h
    obtain ⟨b, s1, sts1, hb, hu, hd, rfl⟩ := decodeSteps_cons h
    simp [decodeSteps] at hd
    subst hd
    exact ⟨[], b, s1, rfl, hb, hu, rfl⟩
  | cons r rs ih =>
    intro s l h
    obtain ⟨b, s1, sts1, hb, hu, hd, rfl⟩ := decodeSteps_cons h
    obtain ⟨sts, b1, fin, hd1, hb1, hu1, rfl⟩ := ih hd
    refine ⟨s1 :: sts, b1, fin, ?_, hb1, ?_, rfl⟩
    · simp [decodeSteps, hb, hu, hd1]
    · have hlast : lastOf s (s1 :: sts) = lastOf s1 sts := by
        unfold lastOf; rw [List.getLastD_cons]
      rw [hlast]; exact hu1

/-- The split of a decoded run of responses into the earlier ones and the final one. -/
theorem decodeSteps_snoc {rs : List Response} {last : Response} {s : LRQResult}
    {sts : List LRQResult} {fin : LRQResult}
    (h : decodeSteps s (rs ++ [last]) = some (sts ++ [fin])) :
    ∃ b, decodeSteps s rs = some sts ∧ last.Body = .ok b
      ∧ Unmarshal b (lastOf s sts) = .ok fin := by
  obtain ⟨sts1, b, fin1, hd, hb, hu, heq⟩ := decodeSteps_append h
  obtain ⟨h1, h2⟩ := List.append_inj' heq rfl
  have h3 : fin = fin1 := by simpa using h2
  subst h1; subst h3
  exact ⟨b, hd, hb, hu⟩

/-- The loop when the rounds before the last decode to incomplete records, the last one to a
complete record, and every request can be built. -/
theorem loop_complete (urlErr : String → Option GoError) (d : DataSetClient)
    (rs : List Response) (last : Response) (o : Res Response) (rest : List (Res Response))
    (sts : List LRQResult) (fin : LRQResult) (i : Nat) (request : Request) (s : LRQResult)
    (token : String)
    (hdec : decodeSteps s (rs ++ [last]) = some (sts ++ [fin]))
    (hinc : ∀ t ∈ sts, ¬ Complete t) (hfin : Complete fin)
    (hpoll : ∀ t ∈ sts, urlErr (pollURL d t) = none)
    (hrel : urlErr (releaseURL d fin) = none) :
    doPingRequest_loop urlErr d (rs.map Res.ok ++ .ok last :: o :: rest) i request s token =
      ⟨request :: sts.map (pollRequest d (tokenAfter i token rs))
          ++ [releaseRequest d (tokenAfter i token rs) fin],
        some (.ok fin)⟩ := by
  obtain ⟨b, hd, hb, hu⟩ := decodeSteps_snoc hdec
  rw [loop_rounds urlErr d (.ok last :: o :: rest) rs sts i request s token hd hinc hpoll,
    loop_done urlErr d last (o :: rest) _ _ _ fin _ b hb hu hfin,
    release_sent urlErr d fin _ o rest hrel, after_mk, afterAll_mk]
  have h := dropLast_getLastD request (sts.map (pollRequest d (tokenAfter i token rs)))
  rw [show ∀ (x y : Request) (l : List Request), l ++ [x, y] = (l ++ [x]) ++ [y] from
    fun x y l => by simp, h]

/-- The submit request of `doPingRequest` and the entry into the loop. -/
theorem doPingRequest_enter {α : Type} (urlErr : String → Option GoError)
    (marshal : α → Res String) (d : DataSetClient) (script : List (Res Response)) (req : α)
    (body : String) (hm : marshal req = .ok body)
    (hpost : urlErr (d.dataSetUrl ++ "/v2/api/queries") = none) :
    doPingRequest urlErr marshal d script req =
      doPingRequest_loop urlErr d script 0 (submitRequest d body) LRQResult.zero "" := by
  simp only [doPingRequest, hm, NewRequest, hpost]
  rfl

/-- The whole run of `doPingRequest` when the submit and every poll but the last decode to an
incomplete record, the last one to a complete record, and every request can be built. -/
theorem run_complete {α : Type} (urlErr : String → Option GoError) (marshal : α → Res String)
    (d : DataSetClient) (req : α) (body : String) (rs : List Response) (last : Response)
    (o : Res Response) (rest : List (Res Response)) (sts : List LRQResult) (fin : LRQResult)
    (hm : marshal req = .ok body)
    (hpost : urlErr (d.dataSetUrl ++ "/v2/api/queries") = none)
    (hdec : decodeSteps LRQResult.zero (rs ++ [last]) = some (sts ++ [fin]))
    (hinc : ∀ t ∈ sts, ¬ Complete t) (hfin : Complete fin)
    (hpoll : ∀ t ∈ sts, urlErr (pollURL d t) = none)
    (hrel : urlErr (releaseURL d fin) = none) :
    doPingRequest urlErr marshal d (rs.map Res.ok ++ .ok last :: o :: rest) req =
      ⟨submitRequest d body :: sts.map (pollRequest d (tokenAfter 0 "" rs))
          ++ [releaseRequest d (tokenAfter 0 "" rs) fin],
        some (.ok fin)⟩ := by
  rw [doPingRequest_enter urlErr marshal d _ req body hm hpost]
  exact loop_complete urlErr d rs last o rest sts fin 0 _ _ _ hdec hinc hfin hpoll hrel

/-- The whole run of `doPingRequest` when the submit and every poll but the last decode to an
incomplete record, the last one to a complete record, and the release cannot be built: the
polling ends all the same and the record is returned, with no DELETE sent. -/
theorem run_complete_unbuilt {α : Type} (urlErr : String → Option GoError)
    (marshal : α → Res String) (d : DataSetClient) (req : α) (body : String)
    (rs : List Response) (last : Response) (rest : List (Res Response))
    (sts : List LRQResult) (fin : LRQResult) (e : GoError)
    (hm : marshal req = .ok body)
    (hpost : urlErr (d.dataSetUrl ++ "/v2/api/queries") = none)
    (hdec : decodeSteps LRQResult.zero (rs ++ [last]) = some (sts ++ [fin]))
    (hinc : ∀ t ∈ sts, ¬ Complete t) (hfin : Complete fin)
    (hpoll : ∀ t ∈ sts, urlErr (pollURL d t) = none)
    (hrel : urlErr (releaseURL d fin) = some e) :
    doPingRequest urlErr marshal d (rs.map Res.ok ++ .ok last :: rest) req =
      ⟨submitRequest d body :: sts.map (pollRequest d (tokenAfter 0 "" rs)),
        some (.ok fin)⟩ := by
  obtain ⟨b, hd, hb, hu⟩ := decodeSteps_snoc hdec
  rw [doPingRequest_enter urlErr marshal d _ req body hm hpost,
    loop_rounds urlErr d (.ok last :: rest) rs sts 0 _ _ _ hd hinc hpoll,
    loop_done urlErr d last rest _ _ _ fin _ b hb hu hfin,
    release_unbuilt urlErr d fin _ rest e hrel, after_mk, afterAll_mk, dropLast_getLastD]

/-! ## Facts about the requests of the wire contract -/

theorem tagged_wire (token : String) (request : Request) :
    wire (tagged token request) = wire request := by
  unfold tagged; split <;> rfl

theorem wire_submit (d : DataSetClient) (body : String) :
    wire (submitRequest d body) = ("POST", d.dataSetUrl ++ "/v2/api/queries") := rfl

theorem wire_poll (d : DataSetClient) (token : String) (s : LRQResult) :
    wire (pollRequest d token s) = ("GET", pollURL d s) := by
  unfold pollRequest; rw [tagged_wire]; rfl

theorem wire_release (d : DataSetClient) (token : String) (s : LRQResult) :
    wire (releaseRequest d token s) = ("DELETE", releaseURL d s) := by
  unfold releaseRequest; rw [tagged_wire]; rfl

theorem wire_polls (d : DataSetClient) (token : String) (sts : List LRQResult) :
    (sts.map (pollRequest d token)).map wire = sts.map (fun t => ("GET", pollURL d t)) := by
  induction sts with
  | nil => rfl
  | cons t ts ih => simp only [List.map_cons, ih, wire_poll]

theorem method_poll (d : DataSetClient) (token : String) (s : LRQResult) :
    (pollRequest d token s).Method = "GET" :=
  congrArg Prod.fst (wire_poll d token s)

theorem method_release (d : DataSetClient) (token : String) (s : LRQResult) :
    (releaseRequest d token s).Method = "DELETE" :=
  congrArg Prod.fst (wire_release d token s)

theorem countMethod_cons (m : String) (r : Request) (l : List Request) :
    countMethod m (r :: l) = (if r.Method = m then 1 else 0) + countMethod m l := by
  unfold countMethod
  by_cases h : r.Method = m
  · simp [List.filter_cons, h]; omega
  · simp [List.filter_cons, h]

theorem countMethod_append (m : String) (l1 l2 : List Request) :
    countMethod m (l1 ++ l2) = countMethod m l1 + countMethod m l2 := by
  unfold countMethod
  rw [List.filter_append, List.length_append]

theorem countMethod_polls (d : DataSetClient) (token : String) (sts : List LRQResult) :
    countMethod "GET" (sts.map (pollRequest d token)) = sts.length ∧
    countMethod "POST" (sts.map (pollRequest d token)) = 0 ∧
    countMethod "DELETE" (sts.map (pollRequest d token)) = 0 := by
  induction sts with
  | nil => exact ⟨rfl, rfl, rfl⟩
  | cons t ts ih =>
    obtain ⟨h1, h2, h3⟩ := ih
    simp only [List.map_cons, countMethod_cons, method_poll, h1, h2, h3, List.length_cons]
    refine ⟨?_, ?_, ?_⟩
    · simp; omega
    · decide
    · decide

theorem pollingKinds_eq {α : Type} (urlErr : String → Option GoError)
    (marshal : α → Res String) (d : DataSetClient) (script : List (Res Response)) (req : α) :
    pollingKinds urlErr marshal d script req =
      List.replicate 3 (doPingRequest urlErr marshal d script req) := rfl

/-- The run on a submit response that decodes to a complete record, whether or not the release
request can be built. -/
theorem run_submit_complete {α : Type} (urlErr : String → Option GoError)
    (marshal : α → Res String) (d : DataSetClient) (req : α) (body : String) (r0 : Response)
    (b : Bytes) (s0 : LRQResult) (o : Res Response) (rest : List (Res Response))
    (hm : marshal req = .ok body)
    (hpost : urlErr (d.dataSetUrl ++ "/v2/api/queries") = none)
    (hb : r0.Body = .ok b) (hu : Unmarshal b LRQResult.zero = .ok s0) (hc : Complete s0) :
    (urlErr (releaseURL d s0) = none →
      doPingRequest urlErr marshal d (.ok r0 :: o :: rest) req =
        ⟨[submitRequest d body, releaseRequest d "" s0], some (.ok s0)⟩) ∧
    (∀ e, urlErr (releaseURL d s0) = some e →
      doPingRequest urlErr marshal d (.ok r0 :: o :: rest) req =
        ⟨[submitRequest d body], some (.ok s0)⟩) := by
  rw [doPingRequest_enter urlErr marshal d _ req body hm hpost,
    loop_done urlErr d r0 (o :: rest) 0 _ _ s0 "" b hb hu hc]
  constructor
  · intro hrel
    rw [release_sent urlErr d s0 "" o rest hrel, after_mk]
  · intro e hrel
    rw [release_unbuilt urlErr d s0 "" (o :: rest) e hrel, after_mk]

/-- A failed submit or poll call ends the loop at once with its error. -/
theorem loop_fail (urlErr : String → Option GoError) (d : DataSetClient) (o : Res Response)
    (rest : List (Res Response)) (i : Nat) (request : Request) (s : LRQResult) (token : String)
    (e : GoError) (hf : FailsAt s o e) :
    doPingRequest_loop urlErr d (o :: rest) i request s token = ⟨[request], some (.err e)⟩ := by
  rcases hf with h | ⟨resp, h, hb⟩ | ⟨resp, b, h, hb, hu⟩
  · subst h
    simp only [doPingRequest_loop, ite_self]
  · subst h
    simp only [doPingRequest_loop, hb]
  · subst h
    simp only [doPingRequest_loop, hb, hu]

/-- The run in which the calls before the failing one all decode to incomplete records. -/
theorem run_fail {α : Type} (urlErr : String → Option GoError) (marshal : α → Res String)
    (d : DataSetClient) (req : α) (body : String) (rs : List Response) (sts : List LRQResult)
    (f : Res Response) (e : GoError) (rest : List (Res Response))
    (hm : marshal req = .ok body)
    (hpost : urlErr (d.dataSetUrl ++ "/v2/api/queries") = none)
    (hdec : decodeSteps LRQResult.zero rs = some sts)
    (hinc : ∀ t ∈ sts, ¬ Complete t)
    (hpoll : ∀ t ∈ sts, urlErr (pollURL d t) = none)
    (hf : FailsAt (lastOf LRQResult.zero sts) f e) :
    doPingRequest urlErr marshal d (rs.map Res.ok ++ f :: rest) req =
      ⟨submitRequest d body :: sts.map (pollRequest d (tokenAfter 0 "" rs)), some (.err e)⟩ := by
  rw [doPingRequest_enter urlErr marshal d _ req body hm hpost,
    loop_rounds urlErr d (f :: rest) rs sts 0 _ _ _ hdec hinc hpoll,
    loop_fail urlErr d f rest _ _ _ _ e hf, afterAll_mk, dropLast_getLastD]

/-! ## The forward tag -/

/-- A request built by `NewRequest` and given the two headers of every call has no tag. -/
theorem untagged_built (method url a c : String) (body : Option String) :
    Untagged (((⟨method, url, ⟨[]⟩, body⟩ : Request).HeaderSet "Authorization" a).HeaderSet
      "Content-Type" c) := by
  simp [Untagged, Request.HeaderSet, Header.Set, Header.Has, TOKEN_HEADER]

theorem release_untagged (urlErr : String → Option GoError) (d : DataSetClient)
    (s : LRQResult) (script : List (Res Response)) :
    ∀ rq ∈ (doPingRequest_release urlErr d s "" script).sent, Untagged rq := by
  intro rq hrq
  unfold doPingRequest_release NewRequest at hrq
  cases hu : urlErr (d.dataSetUrl ++ "/v2/api/queries/" ++ s.Id) with
  | some e => simp [hu] at hrq
  | none =>
    have hb := untagged_built "DELETE" (d.dataSetUrl ++ "/v2/api/queries/" ++ s.Id)
      ("Bearer " ++ d.apiKey) "application/json" none
    rcases script with _ | ⟨o, rest⟩
    · simp [hu] at hrq; subst hrq; exact hb
    · cases o <;> (simp [hu] at hrq; subst hrq; exact hb)

/-- While no token is held and the submit response (if the loop is at round 0) has no tag, no
request of the loop carries the tag header. -/
theorem loop_untagged (urlErr : String → Option GoError) (d : DataSetClient) :
    ∀ (script : List (Res Response)) (i : Nat) (request : Request) (s : LRQResult),
      Untagged request →
      (i = 0 → ∀ resp rest, script = .ok resp :: rest → resp.Hdr.Get TOKEN_HEADER = "") →
      ∀ rq ∈ (doPingRequest_loop urlErr d script i request s "").sent, Untagged rq := by
  intro script
  induction script with
  | nil =>
    intro i request s hreq _ rq hrq
    simp [doPingRequest_loop] at hrq
    subst hrq; exact hreq
  | cons o script ih =>
    intro i request s hreq hfirst rq hrq
    cases o with
    | err e =>
      simp [doPingRequest_loop] at hrq
      subst hrq; exact hreq
    | ok resp =>
      have htok : (if i = 0 then resp.Hdr.Get TOKEN_HEADER else "") = "" := by
        by_cases hi : i = 0
        · rw [if_pos hi]; exact hfirst hi resp script rfl
        · rw [if_neg hi]
      unfold doPingRequest_loop at hrq
      cases hb : resp.Body with
      | err e => simp [hb] at hrq; subst hrq; exact hreq
      | ok b =>
        cases hu : Unmarshal b s with
        | err e => simp [hb, hu] at hrq; subst hrq; exact hreq
        | ok s1 =>
          by_cases hc : s1.StepsCompleted ≥ s1.StepsTotal
          · simp only [hb, hu, hc, if_true, after_sent, List.mem_cons] at hrq
            rcases hrq with h | h
            · subst h; exact hreq
            · exact release_untagged urlErr d s1 script rq h
          · simp only [hb, hu, hc, if_false, htok, NewRequest] at hrq
            cases hurl : urlErr (d.dataSetUrl ++ "/v2/api/queries/" ++ s1.Id ++ "?lastStepSeen="
                ++ fmtInt s1.StepsCompleted) with
            | some e => simp [hurl] at hrq; subst hrq; exact hreq
            | none =>
              simp only [hurl, after_sent, List.mem_cons] at hrq
              rcases hrq with h | h
              · subst h; exact hreq
              · refine ih (i + 1) _ s1 ?_ (fun h0 => absurd h0 (Nat.succ_ne_zero i)) rq h
                exact untagged_built "GET" _ _ _ none

theorem get_set_same (h : Header) (key value : String) : (h.Set key value).Get key = value := by
  have hnone : List.find? (fun kv => kv.1 == key)
      (h.entries.filter (fun kv => kv.1 != key)) = none := by
    rw [List.find?_eq_none]
    intro x hx
    have := (List.mem_filter.mp hx).2
    simpa using this
  simp [Header.Get, Header.Set, List.find?_append, hnone]

theorem tagged_get (token : String) (request : Request) (ht : token ≠ "") :
    (tagged token request).Hdr.Get TOKEN_HEADER = token := by
  simp [tagged, ht, Request.HeaderSet, get_set_same]

/-- When the submit response has a non-empty tag `T` and decodes to an incomplete record, every
request after the submit (each poll and the release) carries `T`. -/
theorem run_polled_tagged {α : Type} (urlErr : String → Option GoError)
    (marshal : α → Res String) (d : DataSetClient) (req : α) (body : String) (r0 : Response)
    (mid : List Response) (last : Response) (o : Res Response) (rest : List (Res Response))
    (sts : List LRQResult) (fin : LRQResult)
    (hm : marshal req = .ok body)
    (hpost : urlErr (d.dataSetUrl ++ "/v2/api/queries") = none)
    (hdec : decodeSteps LRQResult.zero (r0 :: mid ++ [last]) = some (sts ++ [fin]))
    (hinc : ∀ t ∈ sts, ¬ Complete t) (hfin : Complete fin)
    (hpoll : ∀ t ∈ sts, urlErr (pollURL d t) = none)
    (hrel : urlErr (releaseURL d fin) = none)
    (ht : r0.Hdr.Get TOKEN_HEADER ≠ "") :
    ∀ rq ∈ (doPingRequest urlErr marshal d
        (.ok r0 :: mid.map Res.ok ++ .ok last :: o :: rest) req).sent.tail,
      rq.Hdr.Get TOKEN_HEADER = r0.Hdr.Get TOKEN_HEADER := by
  have hrun := run_complete urlErr marshal d req body (r0 :: mid) last o rest sts fin hm hpost
    hdec hinc hfin hpoll hrel
  have hrun1 : doPingRequest urlErr marshal d
      (.ok r0 :: mid.map Res.ok ++ .ok last :: o :: rest) req = _ := hrun
  intro rq hrq
  rw [hrun1] at hrq
  simp only [List.cons_append, List.tail_cons, List.mem_append, List.mem_map,
    List.mem_singleton] at hrq
  have htok : tokenAfter 0 "" (r0 :: mid) = r0.Hdr.Get TOKEN_HEADER := rfl
  rcases hrq with ⟨t, _, rfl⟩ | rfl
  · rw [htok]; exact tagged_get _ _ ht
  · rw [htok]; exact tagged_get _ _ ht

/-! ## What the loop returns -/

theorem release_ret (urlErr : String → Option GoError) (d : DataSetClient) (s : LRQResult)
    (token : String) (script : List (Res Response)) (r : Res LRQResult)
    (h : (doPingRequest_release urlErr d s token script).ret = some r) : r = .ok s := by
  unfold doPingRequest_release NewRequest at h
  cases hu : urlErr (d.dataSetUrl ++ "/v2/api/queries/" ++ s.Id) with
  | some e => simp [hu] at h; exact h.symm
  | none =>
    rcases script with _ | ⟨o, rest⟩
    · simp [hu] at h
    · cases o <;> (simp [hu] at h; exact h.symm)

/-- A result returned by the loop is a complete record. -/
theorem loop_ret_complete (urlErr : String → Option GoError) (d : DataSetClient) :
    ∀ (script : List (Res Response)) (i : Nat) (request : Request) (s : LRQResult)
      (token : String) (r : LRQResult),
      (doPingRequest_loop urlErr d script i request s token).ret = some (.ok r) →
      Complete r := by
  intro script
  induction script with
  | nil => intro i request s token r h; simp [doPingRequest_loop] at h
  | cons o script ih =>
    intro i request s token r h
    cases o with
    | err e => simp [doPingRequest_loop] at h
    | ok resp =>
      unfold doPingRequest_loop at h
      cases hb : resp.Body with
      | err e => simp [hb] at h
      | ok b =>
        cases hu : Unmarshal b s with
        | err e => simp [hb, hu] at h
        | ok s1 =>
          by_cases hc : s1.StepsCompleted ≥ s1.StepsTotal
          · simp only [hb, hu, hc, if_true, after_ret] at h
            have h1 := release_ret urlErr d s1 token script _ h
            have h2 : r = s1 := by injection h1
            subst h2; exact hc
          · simp only [hb, hu, hc, if_false, NewRequest] at h
            cases hurl : urlErr (d.dataSetUrl ++ "/v2/api/queries/" ++ s1.Id ++ "?lastStepSeen="
                ++ fmtInt s1.StepsCompleted) with
            | some e => simp [hurl] at h
            | none =>
              simp only [hurl, after_ret] at h
              exact ih _ _ _ _ r h

/-- The loop sends the request it is entered with first. -/
theorem loop_sent_head (urlErr : String → Option GoError) (d : DataSetClient)
    (script : List (Res Response)) (i : Nat) (request : Request) (s : LRQResult)
    (token : String) :
    ∃ more, (doPingRequest_loop urlErr d script i request s token).sent = request :: more := by
  rcases script with _ | ⟨o, script⟩
  · exact ⟨[], rfl⟩
  · cases o with
    | err e => exact ⟨[], by simp [doPingRequest_loop]⟩
    | ok resp =>
      cases hb : resp.Body with
      | err e => simp only [doPingRequest_loop, hb]; exact ⟨_, rfl⟩
      | ok b =>
        cases hu : Unmarshal b s with
        | err e => simp only [doPingRequest_loop, hb, hu]; exact ⟨_, rfl⟩
        | ok s1 =>
          by_cases hc : s1.StepsCompleted ≥ s1.StepsTotal
          · simp only [doPingRequest_loop, hb, hu, hc, if_true, after_sent]; exact ⟨_, rfl⟩
          · cases hurl : urlErr (d.dataSetUrl ++ "/v2/api/queries/" ++ s1.Id ++ "?lastStepSeen="
                ++ fmtInt s1.StepsCompleted) with
            | some e =>
              simp only [doPingRequest_loop, hb, hu, hc, if_false, NewRequest, hurl]
              exact ⟨_, rfl⟩
            | none =>
              simp only [doPingRequest_loop, hb, hu, hc, if_false, NewRequest, hurl, after_sent]
              exact ⟨_, rfl⟩

/-- A round whose decoded record is incomplete and whose poll cannot be built ends the loop with
the error of the construction. -/
theorem loop_unbuilt (urlErr : String → Option GoError) (d : DataSetClient)
    (resp : Response) (script : List (Res Response)) (i : Nat) (request : Request)
    (s s1 : LRQResult) (token : String) (b : Bytes) (e : GoError)
    (hb : resp.Body = .ok b) (hu : Unmarshal b s = .ok s1) (hs : ¬ Complete s1)
    (hurl : urlErr (pollURL d s1) = some e) :
    doPingRequest_loop urlErr d (.ok resp :: script) i request s token =
      ⟨[request], some (.err e)⟩ := by
  have hs1 : ¬ (s1.StepsCompleted ≥ s1.StepsTotal) := hs
  have hurl1 : urlErr (d.dataSetUrl ++ "/v2/api/queries/" ++ s1.Id ++ "?lastStepSeen="
      ++ fmtInt s1.StepsCompleted) = some e := hurl
  simp only [doPingRequest_loop, hb, hu, hs1, if_false, NewRequest, hurl1]

/-- The run on responses that all decode to incomplete records whose polls can be built,
followed by anything. -/
theorem run_rounds {α : Type} (urlErr : String → Option GoError) (marshal : α → Res String)
    (d : DataSetClient) (req : α) (body : String) (rs : List Response) (sts : List LRQResult)
    (tail : List (Res Response))
    (hm : marshal req = .ok body)
    (hpost : urlErr (d.dataSetUrl ++ "/v2/api/queries") = none)
    (hdec : decodeSteps LRQResult.zero rs = some sts)
    (hinc : ∀ t ∈ sts, ¬ Complete t)
    (hpoll : ∀ t ∈ sts, urlErr (pollURL d t) = none) :
    doPingRequest urlErr marshal d (rs.map Res.ok ++ tail) req =
      (doPingRequest_loop urlErr d tail (0 + rs.length)
        ((sts.map (pollRequest d (tokenAfter 0 "" rs))).getLastD (submitRequest d body))
        (lastOf LRQResult.zero sts) (tokenAfter 0 "" rs)).afterAll
        (submitRequest d body :: sts.map (pollRequest d (tokenAfter 0 "" rs))).dropLast := by
  rw [doPingRequest_enter urlErr marshal d _ req body hm hpost,
    loop_rounds urlErr d tail rs sts 0 _ _ _ hdec hinc hpoll]

/-- The run in which a response decodes to an incomplete record whose poll cannot be built. -/
theorem run_unbuilt {α : Type} (urlErr : String → Option GoError) (marshal : α → Res String)
    (d : DataSetClient) (req : α) (body : String) (rs : List Response) (r : Response)
    (sts : List LRQResult) (s1 : LRQResult) (e : GoError) (tail : List (Res Response))
    (hm : marshal req = .ok body)
    (hpost : urlErr (d.dataSetUrl ++ "/v2/api/queries") = none)
    (hdec : decodeSteps LRQResult.zero (rs ++ [r]) = some (sts ++ [s1]))
    (hinc : ∀ t ∈ sts, ¬ Complete t)
    (hpoll : ∀ t ∈ sts, urlErr (pollURL d t) = none)
    (hs1 : ¬ Complete s1) (hurl : urlErr (pollURL d s1) = some e) :
    doPingRequest urlErr marshal d (rs.map Res.ok ++ .ok r :: tail) req =
      ⟨submitRequest d body :: sts.map (pollRequest d (tokenAfter 0 "" rs)), some (.err e)⟩ := by
  obtain ⟨b, hd, hb, hu⟩ := decodeSteps_snoc hdec
  rw [doPingRequest_enter urlErr marshal d _ req body hm hpost,
    loop_rounds urlErr d (.ok r :: tail) rs sts 0 _ _ _ hd hinc hpoll,
    loop_unbuilt urlErr d r tail _ _ _ s1 _ b e hb hu hs1 hurl, afterAll_mk, dropLast_getLastD]

theorem decodeSteps_replicate (id : String) (n : Nat) :
    ∀ (s : LRQResult), decodeSteps s (List.replicate n (plainResponse id 0 1)
        ++ [plainResponse id 1 1]) =
      some (List.replicate n ⟨id, 0, 1, s.Data⟩ ++ [⟨id, 1, 1, s.Data⟩]) := by
  induction n with
  | zero => intro s; rfl
  | succ n ih =>
    intro s
    have h := ih ⟨id, 0, 1, s.Data⟩
    simp only [List.replicate_succ, List.cons_append]
    unfold decodeSteps
    simp only [plainResponse, respOf] at h ⊢
    have hu : Unmarshal (.object (some id) (some 0) (some 1) none) s = .ok ⟨id, 0, 1, s.Data⟩ := by
      simp [Unmarshal, fitsInt]
    rw [hu]
    simp only [h, Option.map_some']

/-! ## The status code -/

theorem release_withStatus (urlErr : String → Option GoError) (d : DataSetClient)
    (c : Int) (s : LRQResult) (token : String) (script : List (Res Response)) :
    doPingRequest_release urlErr d s token (script.map (withStatus c)) =
      doPingRequest_release urlErr d s token script := by
  rcases script with _ | ⟨o, rest⟩
  · rfl
  · cases o <;> rfl

/-- The loop does not read the status code of a response. -/
theorem loop_withStatus (urlErr : String → Option GoError) (d : DataSetClient) (c : Int) :
    ∀ (script : List (Res Response)) (i : Nat) (request : Request) (s : LRQResult)
      (token : String),
      doPingRequest_loop urlErr d (script.map (withStatus c)) i request s token =
        doPingRequest_loop urlErr d script i request s token := by
  intro script
  induction script with
  | nil => intro i request s token; rfl
  | cons o script ih =>
    intro i request s token
    cases o with
    | err e => rfl
    | ok resp =>
      simp only [List.map_cons, withStatus, doPingRequest_loop, ih, release_withStatus]

theorem run_withStatus {α : Type} (urlErr : String → Option GoError)
    (marshal : α → Res String) (d : DataSetClient) (c : Int) (script : List (Res Response))
    (req : α) :
    doPingRequest urlErr marshal d (script.map (withStatus c)) req =
      doPingRequest urlErr marshal d script req := by
  simp only [doPingRequest, loop_withStatus]

/-! ## The record is cumulative -/

theorem latest_cons {β : Type} (pick : Bytes → Option β) (b : Bytes) (bs : List Bytes) :
    latest pick (b :: bs) = match latest pick bs with
      | some v => some v
      | none => pick b := by
  unfold latest
  rw [List.reverse_cons, List.findSome?_append]
  cases h : List.findSome? pick bs.reverse with
  | none => cases hb : pick b <;> simp [List.findSome?, hb]
  | some v => simp

/-- Decoding a body and then taking the most recent values of later bodies is taking the most
recent values of all of them. -/
theorem heldAfter_cons {b : Bytes} {s s1 : LRQResult} (hu : Unmarshal b s = .ok s1)
    (bs : List Bytes) : heldAfter s (b :: bs) = heldAfter s1 bs := by
  cases b with
  | invalid => simp [Unmarshal] at hu
  | object id sc st data =>
    simp only [Unmarshal] at hu
    split at hu
    · injection hu with hu
      subst hu
      simp only [heldAfter, latest_cons, memberId, memberCompleted, memberTotal, memberData]
      congr 1
      · cases latest memberId bs <;> rfl
      · cases latest memberCompleted bs <;> rfl
      · cases latest memberTotal bs <;> rfl
      · cases latest memberData bs <;> cases data <;> rfl
    · simp at hu

theorem heldAfter_nil (s : LRQResult) : heldAfter s [] = s := rfl

theorem bodiesOf_cons {r : Response} {b : Bytes} (hb : r.Body = .ok b) (rs : List Response) :
    bodiesOf (r :: rs) = b :: bodiesOf rs := by
  simp [bodiesOf, List.filterMap_cons, hb]

/-- The record held after the (k+1)-th response is the one of the most recent values among the
first k+1 bodies. -/
theorem decodeSteps_held :
    ∀ (rs : List Response) (s : LRQResult) (sts : List LRQResult),
      decodeSteps s rs = some sts →
      ∀ k, k < rs.length → sts[k]? = some (heldAfter s (bodiesOf (rs.take (k + 1)))) := by
  intro rs
  induction rs with
  | nil => intro s sts _ k hk; simp at hk
  | cons r rs ih =>
    intro s sts h k hk
    obtain ⟨b, s1, sts1, hb, hu, hd, rfl⟩ := decodeSteps_cons h
    rw [List.take_succ_cons, bodiesOf_cons hb, heldAfter_cons hu]
    cases k with
    | zero => simp [bodiesOf, heldAfter_nil]
    | succ k =>
      have hk1 : k < rs.length := by simpa using hk
      simpa using ih s1 sts1 hd k hk1

/-! ## Claims -/

/-- C3, as amended.  For each of `DoLRQRequest`, `DoFacetValuesRequest` and `DoTopFacetRequest`:
given a submit response whose body decodes to a record with `StepsCompleted = StepsTotal`, the
call sends the submit (POST) and no poll, then exactly one release (DELETE) for the decoded id
when that request can be built and none when it cannot, and returns the decoded submit record
without error. -/
theorem C3_complete_submit {α : Type} (urlErr : String → Option GoError)
    (marshal : α → Res String) (d : DataSetClient) (req : α) (body : String) (r0 : Response)
    (b : Bytes) (s0 : LRQResult) (o : Res Response) (rest : List (Res Response))
    (hm : marshal req = .ok body)
    (hpost : urlErr (d.dataSetUrl ++ "/v2/api/queries") = none)
    (hb : r0.Body = .ok b) (hu : Unmarshal b LRQResult.zero = .ok s0)
    (heq : s0.StepsCompleted = s0.StepsTotal) :
    (urlErr (releaseURL d s0) = none →
      pollingKinds urlErr marshal d (.ok r0 :: o :: rest) req =
        List.replicate 3 ⟨[submitRequest d body, releaseRequest d "" s0], some (.ok s0)⟩) ∧
    (∀ e, urlErr (releaseURL d s0) = some e →
      pollingKinds urlErr marshal d (.ok r0 :: o :: rest) req =
        List.replicate 3 ⟨[submitRequest d body], some (.ok s0)⟩) ∧
    [submitRequest d body, releaseRequest d "" s0].map wire =
      [("POST", d.dataSetUrl ++ "/v2/api/queries"), ("DELETE", releaseURL d s0)] := by
  have hc : Complete s0 := by unfold Complete; omega
  obtain ⟨h1, h2⟩ := run_submit_complete urlErr marshal d req body r0 b s0 o rest hm hpost hb hu hc
  refine ⟨fun hrel => ?_, fun e hrel => ?_, ?_⟩
  · rw [pollingKinds_eq, h1 hrel]
  · rw [pollingKinds_eq, h2 e hrel]
  · simp only [List.map_cons, List.map_nil, wire_submit, wire_release]

/-- Witness of C3: a submit response `id = "q"`, 1 of 1 steps, answered by a release that times
out. -/
theorem C3_complete_submit_witness :
    pollingKinds urlNoCTL marshalText client0
        [.ok (respOf [] "q" 1 1), .err ⟨"timeout", true⟩] "req" =
      List.replicate 3
        ⟨[submitRequest client0 "req", releaseRequest client0 "" ⟨"q", 1, 1, none⟩],
          some (.ok ⟨"q", 1, 1, none⟩)⟩ :=
  (C3_complete_submit urlNoCTL marshalText client0 "req" "req" (respOf [] "q" 1 1)
    (.object (some "q") (some 1) (some 1) none) ⟨"q", 1, 1, none⟩ (.err ⟨"timeout", true⟩) []
    rfl (by decide) rfl (by decide) rfl).1 (by decide)

/-- Counterexample to C3 as stated: the submit response decodes to `id = "q\n"` with 1 of 1
steps; `url.Parse` rejects the address of the release for its control byte, so the call returns
the record having sent the POST and no DELETE. -/
theorem C3_counterexample :
    Unmarshal (.object (some "q\n") (some 1) (some 1) none) LRQResult.zero
        = .ok ⟨"q\n", 1, 1, none⟩ ∧
      DoLRQRequest urlNoCTL marshalText client0
        [.ok (respOf [] "q\n" 1 1), .ok (respOf [] "q\n" 1 1)] "req"
        = ⟨[submitRequest client0 "req"], some (.ok ⟨"q\n", 1, 1, none⟩)⟩ ∧
      countMethod "DELETE" (DoLRQRequest urlNoCTL marshalText client0
        [.ok (respOf [] "q\n" 1 1), .ok (respOf [] "q\n" 1 1)] "req").sent = 0 := by
  decide

/-- C2, as amended.  For each of `DoLRQRequest`, `DoFacetValuesRequest` and
`DoTopFacetRequest`: given a submit response and N = `mid.length + 1` poll responses that are
all read and decoded, the records held after the submit and after every poll but the last
(`sts`) being incomplete and the record held after the last poll (`fin`) complete, and every
poll and the release being requests that can be built, the requests sent are exactly the POST
to `/v2/api/queries`, then N GETs, the k-th to `/v2/api/queries/{id}?lastStepSeen={n}` with the
id and stepsCompleted held after the response before it, then one DELETE to
`/v2/api/queries/{id}` with the id held after the last response; the call returns that
record. -/
theorem C2_submit_polls_release {α : Type} (urlErr : String → Option GoError)
    (marshal : α → Res String) (d : DataSetClient) (req : α) (body : String) (r0 : Response)
    (mid : List Response) (last : Response) (o : Res Response) (rest : List (Res Response))
    (sts : List LRQResult) (fin : LRQResult)
    (hm : marshal req = .ok body)
    (hpost : urlErr (d.dataSetUrl ++ "/v2/api/queries") = none)
    (hdec : decodeSteps LRQResult.zero (r0 :: mid ++ [last]) = some (sts ++ [fin]))
    (hinc : ∀ t ∈ sts, ¬ Complete t) (hfin : Complete fin)
    (hpoll : ∀ t ∈ sts, urlErr (pollURL d t) = none)
    (hrel : urlErr (releaseURL d fin) = none) :
    pollingKinds urlErr marshal d (.ok r0 :: mid.map Res.ok ++ .ok last :: o :: rest) req =
      List.replicate 3
        ⟨submitRequest d body :: sts.map (pollRequest d (r0.Hdr.Get TOKEN_HEADER))
            ++ [releaseRequest d (r0.Hdr.Get TOKEN_HEADER) fin],
          some (.ok fin)⟩ ∧
    (submitRequest d body :: sts.map (pollRequest d (r0.Hdr.Get TOKEN_HEADER))
        ++ [releaseRequest d (r0.Hdr.Get TOKEN_HEADER) fin]).map wire =
      ("POST", d.dataSetUrl ++ "/v2/api/queries") :: sts.map (fun t => ("GET", pollURL d t))
        ++ [("DELETE", releaseURL d fin)] ∧
    sts.length = mid.length + 1 := by
  have hrun := run_complete urlErr marshal d req body (r0 :: mid) last o rest sts fin hm hpost
    hdec hinc hfin hpoll hrel
  refine ⟨?_, ?_, ?_⟩
  · rw [pollingKinds_eq]
    exact congrArg _ hrun
  · simp only [List.map_cons, List.map_append, List.map_nil, wire_submit, wire_release,
      wire_polls]
  · have h := decodeSteps_length hdec
    simp only [List.length_append, List.length_cons, List.length_nil] at h
    omega

/-- Witness of C2: two polls; the submit carries a forward tag, the first poll omits the id. -/
theorem C2_submit_polls_release_witness :
    pollingKinds urlNoCTL marshalText client0
        [.ok (respOf [(TOKEN_HEADER, "T")] "q" 0 2),
          .ok ⟨200, ⟨[]⟩, .ok (.object none (some 1) none none)⟩,
          .ok (respOf [] "q" 2 2), .err ⟨"reset", false⟩] "req" =
      List.replicate 3
        ⟨submitRequest client0 "req"
            :: [(⟨"q", 0, 2, none⟩ : LRQResult), ⟨"q", 1, 2, none⟩].map
              (pollRequest client0 ((respOf [(TOKEN_HEADER, "T")] "q" 0 2).Hdr.Get TOKEN_HEADER))
            ++ [releaseRequest client0
              ((respOf [(TOKEN_HEADER, "T")] "q" 0 2).Hdr.Get TOKEN_HEADER) ⟨"q", 2, 2, none⟩],
          some (.ok ⟨"q", 2, 2, none⟩)⟩ :=
  (C2_submit_polls_release urlNoCTL marshalText client0 "req" "req"
    (respOf [(TOKEN_HEADER, "T")] "q" 0 2)
    [⟨200, ⟨[]⟩, .ok (.object none (some 1) none none)⟩] (respOf [] "q" 2 2)
    (.err ⟨"reset", false⟩) [] [⟨"q", 0, 2, none⟩, ⟨"q", 1, 2, none⟩] ⟨"q", 2, 2, none⟩
    rfl (by decide) (by decide) (by decide) (by decide) (by decide) (by decide)).1

/-- Counterexample to C2 as stated (N = 1): the submit decodes to 0 of 1 steps, the one poll to
`id = "q\n"` with 1 of 1 steps; no transport or decode failure occurs, the address of the
release is rejected for its control byte, and the requests sent are the POST and the GET, with
no DELETE. -/
theorem C2_counterexample :
    decodeSteps LRQResult.zero [respOf [] "q" 0 1, respOf [] "q\n" 1 1]
        = some [⟨"q", 0, 1, none⟩, ⟨"q\n", 1, 1, none⟩] ∧
      DoLRQRequest urlNoCTL marshalText client0
        [.ok (respOf [] "q" 0 1), .ok (respOf [] "q\n" 1 1), .ok (respOf [] "q" 1 1)] "req"
        = ⟨[submitRequest client0 "req", pollRequest client0 "" ⟨"q", 0, 1, none⟩],
            some (.ok ⟨"q\n", 1, 1, none⟩)⟩ ∧
      (DoLRQRequest urlNoCTL marshalText client0
        [.ok (respOf [] "q" 0 1), .ok (respOf [] "q\n" 1 1), .ok (respOf [] "q" 1 1)]
        "req").sent.map wire
        = [("POST", "https://h/v2/api/queries"),
            ("GET", "https://h/v2/api/queries/q?lastStepSeen=0")] := by
  decide

/-- C5.  When the submit and all polls are read and decoded, the last record being the first
complete one, and the release is sent, a release that fails at the transport level (with any
error `e`, timeout or not) leaves the call returning the completed record with a nil error, and
the run is the one of a release that succeeds. -/
theorem C5_release_failure_ignored {α : Type} (urlErr : String → Option GoError)
    (marshal : α → Res String) (d : DataSetClient) (req : α) (body : String)
    (rs : List Response) (last : Response) (sts : List LRQResult) (fin : LRQResult)
    (e : GoError) (resp : Response) (rest rest1 : List (Res Response))
    (hm : marshal req = .ok body)
    (hpost : urlErr (d.dataSetUrl ++ "/v2/api/queries") = none)
    (hdec : decodeSteps LRQResult.zero (rs ++ [last]) = some (sts ++ [fin]))
    (hinc : ∀ t ∈ sts, ¬ Complete t) (hfin : Complete fin)
    (hpoll : ∀ t ∈ sts, urlErr (pollURL d t) = none)
    (hrel : urlErr (releaseURL d fin) = none) :
    doPingRequest urlErr marshal d (rs.map Res.ok ++ .ok last :: .err e :: rest) req =
      ⟨submitRequest d body :: sts.map (pollRequest d (tokenAfter 0 "" rs))
          ++ [releaseRequest d (tokenAfter 0 "" rs) fin],
        some (.ok fin)⟩ ∧
    doPingRequest urlErr marshal d (rs.map Res.ok ++ .ok last :: .err e :: rest) req =
      doPingRequest urlErr marshal d (rs.map Res.ok ++ .ok last :: .ok resp :: rest1) req := by
  rw [run_complete urlErr marshal d req body rs last (.err e) rest sts fin hm hpost hdec hinc
      hfin hpoll hrel,
    run_complete urlErr marshal d req body rs last (.ok resp) rest1 sts fin hm hpost hdec hinc
      hfin hpoll hrel]
  exact ⟨rfl, rfl⟩

/-- Witness of C5: one poll, then a release that times out. -/
theorem C5_release_failure_ignored_witness :
    doPingRequest urlNoCTL marshalText client0
        ([respOf [] "q" 0 1].map Res.ok ++ .ok (respOf [] "q" 1 1)
          :: .err ⟨"timeout", true⟩ :: []) "req" =
      ⟨submitRequest client0 "req"
          :: [(⟨"q", 0, 1, none⟩ : LRQResult)].map
            (pollRequest client0 (tokenAfter 0 "" [respOf [] "q" 0 1]))
          ++ [releaseRequest client0 (tokenAfter 0 "" [respOf [] "q" 0 1]) ⟨"q", 1, 1, none⟩],
        some (.ok ⟨"q", 1, 1, none⟩)⟩ :=
  (C5_release_failure_ignored urlNoCTL marshalText client0 "req" "req" [respOf [] "q" 0 1]
    (respOf [] "q" 1 1) [⟨"q", 0, 1, none⟩] ⟨"q", 1, 1, none⟩ ⟨"timeout", true⟩
    (respOf [] "" 0 0) [] [] rfl (by decide) (by decide) (by decide) (by decide) (by decide)
    (by decide)).1

/-- C4.  If the calls before the k-th (k = `rs.length + 1`) are read and decoded to incomplete
records and the k-th call of the submit/poll sequence fails with error `e` (transport error,
unreadable body, or a body that does not decode), the call returns `e` and no result, and the
requests sent are exactly the k up to the failing one: no retry, no further poll, no release,
whatever the transport would have answered next (`rest`).  In particular (k = 1) a transport
timeout on the submit returns the error with only the POST sent. -/
theorem C4_failure_is_fatal {α : Type} (urlErr : String → Option GoError)
    (marshal : α → Res String) (d : DataSetClient) (req : α) (body : String)
    (rs : List Response) (sts : List LRQResult) (f : Res Response) (e : GoError)
    (rest : List (Res Response))
    (hm : marshal req = .ok body)
    (hpost : urlErr (d.dataSetUrl ++ "/v2/api/queries") = none)
    (hdec : decodeSteps LRQResult.zero rs = some sts)
    (hinc : ∀ t ∈ sts, ¬ Complete t)
    (hpoll : ∀ t ∈ sts, urlErr (pollURL d t) = none)
    (hf : FailsAt (lastOf LRQResult.zero sts) f e) :
    doPingRequest urlErr marshal d (rs.map Res.ok ++ f :: rest) req =
      ⟨submitRequest d body :: sts.map (pollRequest d (tokenAfter 0 "" rs)), some (.err e)⟩ ∧
    (doPingRequest urlErr marshal d (rs.map Res.ok ++ f :: rest) req).sent.length
      = rs.length + 1 ∧
    countMethod "DELETE" (doPingRequest urlErr marshal d (rs.map Res.ok ++ f :: rest) req).sent
      = 0 ∧
    (∀ (t : GoError) (tail : List (Res Response)), t.timeout = true →
      doPingRequest urlErr marshal d (.err t :: tail) req
        = ⟨[submitRequest d body], some (.err t)⟩) := by
  have hrun := run_fail urlErr marshal d req body rs sts f e rest hm hpost hdec hinc hpoll hf
  refine ⟨hrun, ?_, ?_, ?_⟩
  · rw [hrun]
    simp only [List.length_cons, List.length_map, decodeSteps_length hdec]
  · rw [hrun]
    have hs : (submitRequest d body).Method = "POST" := rfl
    simp only [countMethod_cons, hs, (countMethod_polls d _ sts).2.2]
    decide
  · intro t tail _
    exact run_fail urlErr marshal d req body [] [] (.err t) t tail hm hpost rfl
      (fun _ h => absurd h (List.not_mem_nil _)) (fun _ h => absurd h (List.not_mem_nil _))
      (Or.inl rfl)

/-- Witness of C4 (k = 2): the submit decodes to 0 of 1 steps, the body of the poll response is
not JSON; what the script holds after it is never asked for. -/
theorem C4_failure_is_fatal_witness :
    doPingRequest urlNoCTL marshalText client0
        ([respOf [] "q" 0 1].map Res.ok ++ .ok ⟨200, ⟨[]⟩, .ok .invalid⟩
          :: [.ok (respOf [] "q" 1 1)]) "req" =
      ⟨submitRequest client0 "req"
          :: [(⟨"q", 0, 1, none⟩ : LRQResult)].map
            (pollRequest client0 (tokenAfter 0 "" [respOf [] "q" 0 1])),
        some (.err unmarshalError)⟩ :=
  (C4_failure_is_fatal urlNoCTL marshalText client0 "req" "req" [respOf [] "q" 0 1]
    [⟨"q", 0, 1, none⟩] (.ok ⟨200, ⟨[]⟩, .ok .invalid⟩) unmarshalError [.ok (respOf [] "q" 1 1)]
    rfl (by decide) (by decide) (by decide) (by decide)
    (Or.inr (Or.inr ⟨_, _, rfl, rfl, rfl⟩))).1

/-- C6.  If the submit response has no `X-Dataset-Query-Forward-Tag` header, or has it with an
empty value, no request of the call (submit, polls, release) carries that header, whatever
headers the later responses have. -/
theorem C6_no_tag_without_submit_tag {α : Type} (urlErr : String → Option GoError)
    (marshal : α → Res String) (d : DataSetClient) (req : α) (script : List (Res Response))
    (hfirst : ∀ resp rest, script = .ok resp :: rest → resp.Hdr.Get TOKEN_HEADER = "") :
    ∀ rq ∈ (doPingRequest urlErr marshal d script req).sent,
      rq.Hdr.Has TOKEN_HEADER = false := by
  intro rq hrq
  unfold doPingRequest NewRequest at hrq
  cases hm : marshal req with
  | err e => simp [hm] at hrq
  | ok body =>
    cases hu : urlErr (d.dataSetUrl ++ "/v2/api/queries") with
    | some e => simp [hm, hu] at hrq
    | none =>
      simp only [hm, hu] at hrq
      exact loop_untagged urlErr d script 0 _ _ (untagged_built "POST" _ _ _ _)
        (fun _ => hfirst) rq hrq

/-- Witness of C6: the submit response has no tag, the first poll response has one; no request
of the run carries the header. -/
theorem C6_no_tag_without_submit_tag_witness :
    (doPingRequest urlNoCTL marshalText client0
        [.ok (respOf [] "q" 0 2), .ok (respOf [(TOKEN_HEADER, "T")] "q" 1 2),
          .ok (respOf [(TOKEN_HEADER, "T")] "q" 2 2), .ok (respOf [] "q" 2 2)] "req").sent.all
      (fun rq => !rq.Hdr.Has TOKEN_HEADER) = true :=
  List.all_eq_true.mpr (fun rq h => by
    rw [C6_no_tag_without_submit_tag urlNoCTL marshalText client0 "req" _
      (fun resp rest hs => by cases hs; decide) rq h]
    rfl)

/-- C7, as amended.  (a) A result returned without error is a complete record
(`StepsCompleted >= StepsTotal`).  (b) A response that decodes to a record with
`StepsCompleted >= StepsTotal` ends the polling: after the submit and polls whose records were
incomplete, the first record with `StepsCompleted >= StepsTotal` (equal or greater) is returned
without error, no GET follows it (the GETs sent are the one per incomplete record), and the
only request after it is the release, when that can be built.  (c) After responses that all
decode to incomplete records, each poll being a request that can be built, the call has sent
one poll after every one of them and has returned nothing; whatever the transport answers
next, those requests are the first ones sent.  (d) When the poll for an incomplete record
cannot be built, the call returns the error of the construction, no result, and sends nothing
more.  (e) The number of polls has no bound: for every N some script makes the call send
exactly N GETs and return a result. -/
theorem C7_completion_predicate {α : Type} (urlErr : String → Option GoError)
    (marshal : α → Res String) (d : DataSetClient) (req : α) :
    (∀ script r, (doPingRequest urlErr marshal d script req).ret = some (.ok r) → Complete r) ∧
    (∀ body rs last o rest sts fin, marshal req = .ok body →
      urlErr (d.dataSetUrl ++ "/v2/api/queries") = none →
      decodeSteps LRQResult.zero (rs ++ [last]) = some (sts ++ [fin]) →
      (∀ t ∈ sts, t.StepsCompleted < t.StepsTotal) →
      (∀ t ∈ sts, urlErr (pollURL d t) = none) →
      fin.StepsCompleted ≥ fin.StepsTotal →
      (urlErr (releaseURL d fin) = none →
        doPingRequest urlErr marshal d (rs.map Res.ok ++ .ok last :: o :: rest) req =
          ⟨submitRequest d body :: sts.map (pollRequest d (tokenAfter 0 "" rs))
              ++ [releaseRequest d (tokenAfter 0 "" rs) fin],
            some (.ok fin)⟩) ∧
      (∀ e, urlErr (releaseURL d fin) = some e →
        doPingRequest urlErr marshal d (rs.map Res.ok ++ .ok last :: o :: rest) req =
          ⟨submitRequest d body :: sts.map (pollRequest d (tokenAfter 0 "" rs)),
            some (.ok fin)⟩) ∧
      (doPingRequest urlErr marshal d (rs.map Res.ok ++ .ok last :: o :: rest) req).ret
        = some (.ok fin) ∧
      countMethod "GET"
        (doPingRequest urlErr marshal d (rs.map Res.ok ++ .ok last :: o :: rest) req).sent
        = sts.length) ∧
    (∀ body rs sts, marshal req = .ok body →
      urlErr (d.dataSetUrl ++ "/v2/api/queries") = none →
      decodeSteps LRQResult.zero rs = some sts →
      (∀ t ∈ sts, ¬ Complete t) →
      (∀ t ∈ sts, urlErr (pollURL d t) = none) →
      doPingRequest urlErr marshal d (rs.map Res.ok) req =
        ⟨submitRequest d body :: sts.map (pollRequest d (tokenAfter 0 "" rs)), none⟩ ∧
      ∀ tail, ∃ more, (doPingRequest urlErr marshal d (rs.map Res.ok ++ tail) req).sent =
        (submitRequest d body :: sts.map (pollRequest d (tokenAfter 0 "" rs))) ++ more) ∧
    (∀ body rs r sts s1 e tail, marshal req = .ok body →
      urlErr (d.dataSetUrl ++ "/v2/api/queries") = none →
      decodeSteps LRQResult.zero (rs ++ [r]) = some (sts ++ [s1]) →
      (∀ t ∈ sts, ¬ Complete t) →
      (∀ t ∈ sts, urlErr (pollURL d t) = none) →
      ¬ Complete s1 → urlErr (pollURL d s1) = some e →
      doPingRequest urlErr marshal d (rs.map Res.ok ++ .ok r :: tail) req =
        ⟨submitRequest d body :: sts.map (pollRequest d (tokenAfter 0 "" rs)),
          some (.err e)⟩) ∧
    (∀ body id (N : Nat), marshal req = .ok body →
      urlErr (d.dataSetUrl ++ "/v2/api/queries") = none →
      urlErr (pollURL d ⟨id, 0, 1, none⟩) = none →
      urlErr (releaseURL d ⟨id, 1, 1, none⟩) = none →
      ∃ script, (∃ r, (doPingRequest urlErr marshal d script req).ret = some (.ok r)) ∧
        countMethod "GET" (doPingRequest urlErr marshal d script req).sent = N) := by
  refine ⟨?_, ?_, ?_, ?_, ?_⟩
  · intro script r h
    unfold doPingRequest NewRequest at h
    cases hm : marshal req with
    | err e => simp [hm] at h
    | ok body =>
      cases hu : urlErr (d.dataSetUrl ++ "/v2/api/queries") with
      | some e => simp [hm, hu] at h
      | none =>
        simp only [hm, hu] at h
        exact loop_ret_complete urlErr d script _ _ _ _ r h
  · intro body rs last o rest sts fin hm hpost hdec hlt hpoll hge
    have hinc : ∀ t ∈ sts, ¬ Complete t := fun t ht hc => by
      have h1 := hlt t ht
      unfold Complete at hc
      omega
    have hfin : Complete fin := hge
    have hs : (submitRequest d body).Method = "POST" := rfl
    have hbuilt := fun hrel => run_complete urlErr marshal d req body rs last o rest sts fin hm
      hpost hdec hinc hfin hpoll hrel
    have hunbuilt := fun e hrel => run_complete_unbuilt urlErr marshal d req body rs last
      (o :: rest) sts fin e hm hpost hdec hinc hfin hpoll hrel
    refine ⟨hbuilt, hunbuilt, ?_, ?_⟩
    · cases hrel : urlErr (releaseURL d fin) with
      | none => rw [hbuilt hrel]
      | some e => rw [hunbuilt e hrel]
    · cases hrel : urlErr (releaseURL d fin) with
      | none =>
        rw [hbuilt hrel]
        simp only [countMethod_cons, countMethod_append, hs, method_release,
          (countMethod_polls d _ _).1]
        simp [countMethod]
      | some e =>
        rw [hunbuilt e hrel]
        simp only [countMethod_cons, hs, (countMethod_polls d _ _).1]
        simp
  · intro body rs sts hm hpost hdec hinc hpoll
    constructor
    · have h := run_rounds urlErr marshal d req body rs sts [] hm hpost hdec hinc hpoll
      rw [List.append_nil] at h
      rw [h]
      simp only [doPingRequest_loop, afterAll_mk, dropLast_getLastD]
    · intro tail
      rw [run_rounds urlErr marshal d req body rs sts tail hm hpost hdec hinc hpoll]
      obtain ⟨more, hmore⟩ := loop_sent_head urlErr d tail (0 + rs.length)
        ((sts.map (pollRequest d (tokenAfter 0 "" rs))).getLastD (submitRequest d body))
        (lastOf LRQResult.zero sts) (tokenAfter 0 "" rs)
      refine ⟨more, ?_⟩
      show _ ++ _ = _
      rw [hmore, ← dropLast_getLastD (submitRequest d body)
        (sts.map (pollRequest d (tokenAfter 0 "" rs)))]
      simp
  · intro body rs r sts s1 e tail hm hpost hdec hinc hpoll hs1 hurl
    exact run_unbuilt urlErr marshal d req body rs r sts s1 e tail hm hpost hdec hinc hpoll hs1
      hurl
  · intro body id N hm hpost hpoll hrel
    refine ⟨(List.replicate N (plainResponse id 0 1)).map Res.ok
      ++ .ok (plainResponse id 1 1) :: .ok (plainResponse id 1 1) :: [], ?_⟩
    have hrun := run_complete urlErr marshal d req body (List.replicate N (plainResponse id 0 1))
      (plainResponse id 1 1) (.ok (plainResponse id 1 1)) [] (List.replicate N ⟨id, 0, 1, none⟩)
      ⟨id, 1, 1, none⟩ hm hpost (decodeSteps_replicate id N LRQResult.zero)
      (fun t ht => by rw [List.eq_of_mem_replicate ht]; simp [Complete])
      (by simp [Complete])
      (fun t ht => by rw [List.eq_of_mem_replicate ht]; exact hpoll) hrel
    rw [hrun]
    refine ⟨⟨_, rfl⟩, ?_⟩
    have hs : (submitRequest d body).Method = "POST" := rfl
    simp only [countMethod_cons, countMethod_append, hs, method_release,
      (countMethod_polls d _ _).1, List.length_replicate]
    simp [countMethod]

/-- Witness of C7.  (b) at equality: a poll response with 1 of 1 steps, after a submit with 0 of
1, ends the polling, and further responses of the script are never asked for.  (b) above
equality: a submit response with 2 of 1 steps is returned at once.  (c): two responses that
decode to incomplete records leave the call polling. -/
theorem C7_completion_predicate_witness :
    doPingRequest urlNoCTL marshalText client0
        ([respOf [] "q" 0 1].map Res.ok ++ .ok (respOf [] "q" 1 1)
          :: .ok (respOf [] "q" 1 1) :: [.ok (respOf [] "q" 0 1)]) "req" =
      ⟨submitRequest client0 "req"
          :: [(⟨"q", 0, 1, none⟩ : LRQResult)].map
            (pollRequest client0 (tokenAfter 0 "" [respOf [] "q" 0 1]))
          ++ [releaseRequest client0 (tokenAfter 0 "" [respOf [] "q" 0 1]) ⟨"q", 1, 1, none⟩],
        some (.ok ⟨"q", 1, 1, none⟩)⟩ ∧
    doPingRequest urlNoCTL marshalText client0
        (([] : List Response).map Res.ok ++ .ok (respOf [] "q" 2 1)
          :: .ok (respOf [] "q" 2 1) :: []) "req" =
      ⟨submitRequest client0 "req"
          :: ([] : List LRQResult).map (pollRequest client0 (tokenAfter 0 "" []))
          ++ [releaseRequest client0 (tokenAfter 0 "" []) ⟨"q", 2, 1, none⟩],
        some (.ok ⟨"q", 2, 1, none⟩)⟩ ∧
    doPingRequest urlNoCTL marshalText client0
        ([respOf [] "q" 0 2, respOf [] "q" 1 2].map Res.ok) "req" =
      ⟨submitRequest client0 "req"
          :: [(⟨"q", 0, 2, none⟩ : LRQResult), ⟨"q", 1, 2, none⟩].map
            (pollRequest client0 (tokenAfter 0 "" [respOf [] "q" 0 2, respOf [] "q" 1 2])),
        none⟩ :=
  ⟨((C7_completion_predicate urlNoCTL marshalText client0 "req").2.1 "req"
      [respOf [] "q" 0 1] (respOf [] "q" 1 1) (.ok (respOf [] "q" 1 1))
      [.ok (respOf [] "q" 0 1)] [⟨"q", 0, 1, none⟩] ⟨"q", 1, 1, none⟩
      rfl (by decide) (by decide) (by decide) (by decide) (by decide)).1 (by decide),
    ((C7_completion_predicate urlNoCTL marshalText client0 "req").2.1 "req"
      [] (respOf [] "q" 2 1) (.ok (respOf [] "q" 2 1)) [] [] ⟨"q", 2, 1, none⟩
      rfl (by decide) (by decide) (by decide) (by decide) (by decide)).1 (by decide),
    ((C7_completion_predicate urlNoCTL marshalText client0 "req").2.2.1 "req"
      [respOf [] "q" 0 2, respOf [] "q" 1 2] [⟨"q", 0, 2, none⟩, ⟨"q", 1, 2, none⟩]
      rfl (by decide) (by decide) (by decide) (by decide)).1⟩

/-- Counterexample to C7 as stated: the submit response decodes to `id = "q\n"` with 0 of 1
steps, an incomplete record; the address of the poll is rejected for its control byte and the
call returns that error with no poll sent. -/
theorem C7_counterexample :
    Unmarshal (.object (some "q\n") (some 0) (some 1) none) LRQResult.zero
        = .ok ⟨"q\n", 0, 1, none⟩ ∧
      ¬ Complete ⟨"q\n", 0, 1, none⟩ ∧
      doPingRequest urlNoCTL marshalText client0
        [.ok (respOf [] "q\n" 0 1), .ok (respOf [] "q" 1 1), .ok (respOf [] "q" 1 1)] "req"
        = ⟨[submitRequest client0 "req"],
            some (.err ⟨"net/url: invalid control character in URL", false⟩)⟩ ∧
      countMethod "GET" (doPingRequest urlNoCTL marshalText client0
        [.ok (respOf [] "q\n" 0 1), .ok (respOf [] "q" 1 1), .ok (respOf [] "q" 1 1)]
        "req").sent = 0 := by
  decide

/-- C8, as amended.  When the request can be built (the encoding succeeds and
`http.NewRequest` accepts `{base}/api/facetQuery`), `DoFacetRequest` sends exactly one request
on every script: the POST to `{base}/api/facetQuery` with the encoded request as body and no
forward-tag header, hence no poll and no release; for a response whose body can be read it
returns `(StatusCode, nil)` whatever the status code and the bytes; on a transport failure it
returns `(0, error)`.  When the request cannot be built it sends nothing and returns
`(0, error)`. -/
theorem C8_facet_request (urlErr : String → Option GoError)
    (marshal : FacetRequest → Res String) (d : DataSetClient) (req : FacetRequest) :
    (∀ body, marshal req = .ok body → urlErr (d.dataSetUrl ++ "/api/facetQuery") = none →
      (∀ script, (DoFacetRequest urlErr marshal d script req).sent = [facetRequest d body]) ∧
      wire (facetRequest d body) = ("POST", d.dataSetUrl ++ "/api/facetQuery") ∧
      (facetRequest d body).Body = some body ∧
      (facetRequest d body).Hdr.Has TOKEN_HEADER = false ∧
      (∀ (resp : Response) (b : Bytes) (rest : List (Res Response)), resp.Body = .ok b →
        (DoFacetRequest urlErr marshal d (.ok resp :: rest) req).ret
          = some (resp.StatusCode, none)) ∧
      (∀ (e : GoError) (rest : List (Res Response)),
        (DoFacetRequest urlErr marshal d (.err e :: rest) req).ret = some (0, some e))) ∧
    (∀ e, (marshal req = .err e ∨
        (∃ body, marshal req = .ok body ∧
          urlErr (d.dataSetUrl ++ "/api/facetQuery") = some e)) →
      ∀ script, DoFacetRequest urlErr marshal d script req = ⟨[], some (0, some e)⟩) := by
  constructor
  · intro body hm hurl
    refine ⟨?_, rfl, rfl, ?_, ?_, ?_⟩
    · intro script
      simp only [DoFacetRequest, hm, NewRequest, hurl]
      rcases script with _ | ⟨o, rest⟩
      · rfl
      · cases o with
        | err e => rfl
        | ok resp => cases hb : resp.Body <;> simp only [hb] <;> rfl
    · exact untagged_built "POST" _ _ _ _
    · intro resp b rest hb
      simp only [DoFacetRequest, hm, NewRequest, hurl, hb]
    · intro e rest
      simp only [DoFacetRequest, hm, NewRequest, hurl]
  · intro e h script
    rcases h with hm | ⟨body, hm, hurl⟩
    · simp only [DoFacetRequest, hm]
    · simp only [DoFacetRequest, hm, NewRequest, hurl]

/-- Witness of C8: a response with status 503 and a body that is not JSON. -/
theorem C8_facet_request_witness :
    (DoFacetRequest urlNoCTL (fun r => .ok r.Field) client0
        (.ok ⟨503, ⟨[]⟩, .ok .invalid⟩ :: []) ⟨"facet", 10, "host"⟩).ret
      = some ((⟨503, ⟨[]⟩, .ok .invalid⟩ : Response).StatusCode, none) :=
  ((C8_facet_request urlNoCTL (fun r => .ok r.Field) client0 ⟨"facet", 10, "host"⟩).1 "host"
    rfl (by decide)).2.2.2.2.1 ⟨503, ⟨[]⟩, .ok .invalid⟩ .invalid [] rfl

/-- Counterexample to C8 as stated: the client is configured with the address `"https://h\n"`;
`http.NewRequest` rejects `"https://h\n/api/facetQuery"` for its control byte and
`DoFacetRequest` returns `(0, error)` having sent no request at all. -/
theorem C8_counterexample :
    DoFacetRequest urlNoCTL (fun r => .ok r.Field) ⟨"https://h\n", "k"⟩
        [.ok ⟨200, ⟨[]⟩, .ok .invalid⟩] ⟨"facet", 10, "host"⟩
      = ⟨[], some (0, some ⟨"net/url: invalid control character in URL", false⟩)⟩ := by
  decide

/-- C9, as amended.  (a) Two scripts that differ only in the status codes of their responses
give the same run: the same requests and the same result or error.  (b) A submit response of
any status whose body is an object without `stepsCompleted` and `stepsTotal` decodes to 0 of 0
steps, a complete record: the call sends the POST and no poll, then one DELETE to the decoded
(possibly empty) id when that request can be built and none when it cannot, and returns the
record without error. -/
theorem C9_status_code_ignored {α : Type} (urlErr : String → Option GoError)
    (marshal : α → Res String) (d : DataSetClient) (req : α) :
    (∀ (c : Int) (script1 script2 : List (Res Response)),
      script1.map (withStatus c) = script2.map (withStatus c) →
      doPingRequest urlErr marshal d script1 req = doPingRequest urlErr marshal d script2 req) ∧
    (∀ (body : String) (status : Int) (hdr : Header) (id data : Option String)
      (o : Res Response) (rest : List (Res Response)),
      marshal req = .ok body →
      urlErr (d.dataSetUrl ++ "/v2/api/queries") = none →
      Unmarshal (.object id none none data) LRQResult.zero = .ok ⟨id.getD "", 0, 0, data⟩ ∧
      Complete ⟨id.getD "", 0, 0, data⟩ ∧
      (urlErr (releaseURL d ⟨id.getD "", 0, 0, data⟩) = none →
        doPingRequest urlErr marshal d
            (.ok ⟨status, hdr, .ok (.object id none none data)⟩ :: o :: rest) req =
          ⟨[submitRequest d body, releaseRequest d "" ⟨id.getD "", 0, 0, data⟩],
            some (.ok ⟨id.getD "", 0, 0, data⟩)⟩) ∧
      (∀ e, urlErr (releaseURL d ⟨id.getD "", 0, 0, data⟩) = some e →
        doPingRequest urlErr marshal d
            (.ok ⟨status, hdr, .ok (.object id none none data)⟩ :: o :: rest) req =
          ⟨[submitRequest d body], some (.ok ⟨id.getD "", 0, 0, data⟩)⟩)) := by
  constructor
  · intro c script1 script2 h
    rw [← run_withStatus urlErr marshal d c script1, ← run_withStatus urlErr marshal d c script2,
      h]
  · intro body status hdr id data o rest hm hpost
    have hu : Unmarshal (.object id none none data) LRQResult.zero
        = .ok ⟨id.getD "", 0, 0, data⟩ := by
      cases id <;> cases data <;> rfl
    have hc : Complete ⟨id.getD "", 0, 0, data⟩ := by simp [Complete]
    obtain ⟨h1, h2⟩ := run_submit_complete urlErr marshal d req body
      ⟨status, hdr, .ok (.object id none none data)⟩ _ _ o rest hm hpost rfl hu hc
    exact ⟨hu, hc, h1, h2⟩

/-- Witness of C9 (b): status 500, a body with neither step count and no id. -/
theorem C9_status_code_ignored_witness :
    doPingRequest urlNoCTL marshalText client0
        (.ok ⟨500, ⟨[]⟩, .ok (.object none none none none)⟩ :: .ok (respOf [] "" 0 0) :: [])
        "req" =
      ⟨[submitRequest client0 "req",
          releaseRequest client0 "" ⟨(none : Option String).getD "", 0, 0, none⟩],
        some (.ok ⟨(none : Option String).getD "", 0, 0, none⟩)⟩ :=
  ((C9_status_code_ignored urlNoCTL marshalText client0 "req").2 "req" 500 ⟨[]⟩ none none
    (.ok (respOf [] "" 0 0)) [] rfl (by decide)).2.2.1 (by decide)

/-- Counterexample to C9 as stated: a response of status 500 whose body carries `id = "a\tb"`
and no step counts is taken as complete and returned without error, and no DELETE is sent: the
address of the release is rejected for its control byte. -/
theorem C9_counterexample :
    doPingRequest urlNoCTL marshalText client0
        [.ok ⟨500, ⟨[]⟩, .ok (.object (some "a\tb") none none none)⟩, .ok (respOf [] "" 0 0)]
        "req"
      = ⟨[submitRequest client0 "req"], some (.ok ⟨"a\tb", 0, 0, none⟩)⟩ ∧
    countMethod "DELETE" (doPingRequest urlNoCTL marshalText client0
        [.ok ⟨500, ⟨[]⟩, .ok (.object (some "a\tb") none none none)⟩, .ok (respOf [] "" 0 0)]
        "req").sent = 0 := by
  decide

/-- C10.  In a run that completes, the records used for the completion checks, for the
addresses of the polls and of the release, and as the result (`sts`, `fin`) are cumulative: the
record held after the (k+1)-th response gives every field the value of the most recent of the
first k+1 bodies that carried it (the zero value when none did).  When the final response
carries all fields, the result is the decoding of that response alone. -/
theorem C10_record_reused {α : Type} (urlErr : String → Option GoError)
    (marshal : α → Res String) (d : DataSetClient) (req : α) (body : String)
    (rs : List Response) (last : Response) (o : Res Response) (rest : List (Res Response))
    (sts : List LRQResult) (fin : LRQResult)
    (hm : marshal req = .ok body)
    (hpost : urlErr (d.dataSetUrl ++ "/v2/api/queries") = none)
    (hdec : decodeSteps LRQResult.zero (rs ++ [last]) = some (sts ++ [fin]))
    (hinc : ∀ t ∈ sts, ¬ Complete t) (hfin : Complete fin)
    (hpoll : ∀ t ∈ sts, urlErr (pollURL d t) = none)
    (hrel : urlErr (releaseURL d fin) = none) :
    doPingRequest urlErr marshal d (rs.map Res.ok ++ .ok last :: o :: rest) req =
      ⟨submitRequest d body :: sts.map (pollRequest d (tokenAfter 0 "" rs))
          ++ [releaseRequest d (tokenAfter 0 "" rs) fin],
        some (.ok fin)⟩ ∧
    (∀ k, k < rs.length →
      sts[k]? = some (heldAfter LRQResult.zero (bodiesOf ((rs ++ [last]).take (k + 1))))) ∧
    fin = heldAfter LRQResult.zero (bodiesOf (rs ++ [last])) ∧
    (∀ id sc st data, last.Body = .ok (.object (some id) (some sc) (some st) (some data)) →
      Unmarshal (.object (some id) (some sc) (some st) (some data)) LRQResult.zero
        = .ok fin) := by
  have hlen : sts.length = rs.length := by
    have h := decodeSteps_length hdec
    simp only [List.length_append, List.length_cons, List.length_nil] at h
    omega
  have hheld := decodeSteps_held (rs ++ [last]) LRQResult.zero (sts ++ [fin]) hdec
  refine ⟨run_complete urlErr marshal d req body rs last o rest sts fin hm hpost hdec hinc hfin
    hpoll hrel, ?_, ?_, ?_⟩
  · intro k hk
    have h := hheld k (by simp only [List.length_append, List.length_cons, List.length_nil]; omega)
    rw [List.getElem?_append_left (by omega)] at h
    exact h
  · have h := hheld rs.length (by simp)
    rw [← hlen, List.getElem?_append_right (le_refl _)] at h
    simp only [Nat.sub_self, List.getElem?_cons_zero, Option.some.injEq] at h
    rw [h, hlen, List.take_of_length_le (by simp)]
  · intro id sc st data hb
    obtain ⟨b, _, hb1, hu⟩ := decodeSteps_snoc hdec
    rw [hb] at hb1
    injection hb1 with hb1
    subst hb1
    simp only [Unmarshal] at hu ⊢
    split at hu
    · rename_i hfit
      rw [if_pos hfit]
      injection hu with hu
      subst hu
      rfl
    · simp at hu

/-- Witness of C10: the submit carries `id = "q"`, 0 of 2 steps; the two poll responses carry
only `stepsCompleted` (1, then 2).  Both polls and the release go to the id of the submit
response. -/
theorem C10_record_reused_witness :
    (doPingRequest urlNoCTL marshalText client0
        ([respOf [] "q" 0 2, ⟨200, ⟨[]⟩, .ok (.object none (some 1) none none)⟩].map Res.ok
          ++ .ok ⟨200, ⟨[]⟩, .ok (.object none (some 2) none none)⟩
          :: .ok (respOf [] "" 0 0) :: []) "req").sent.map wire =
      [("POST", "https://h/v2/api/queries"),
        ("GET", "https://h/v2/api/queries/q?lastStepSeen=0"),
        ("GET", "https://h/v2/api/queries/q?lastStepSeen=1"),
        ("DELETE", "https://h/v2/api/queries/q")] := by
  rw [(C10_record_reused urlNoCTL marshalText client0 "req" "req"
    [respOf [] "q" 0 2, ⟨200, ⟨[]⟩, .ok (.object none (some 1) none none)⟩]
    ⟨200, ⟨[]⟩, .ok (.object none (some 2) none none)⟩ (.ok (respOf [] "" 0 0)) []
    [⟨"q", 0, 2, none⟩, ⟨"q", 1, 2, none⟩] ⟨"q", 2, 2, none⟩
    rfl (by decide) (by decide) (by decide) (by decide) (by decide) (by decide)).1]
  decide

/-- C1 at its failing input: the submit response carries the tag `T` and decodes to a complete
record (1 of 1 steps); the call sends the POST and the DELETE, and the DELETE carries no
forward-tag header. -/
theorem C1_release_untagged_when_submit_complete :
    (respOf [(TOKEN_HEADER, "T")] "q" 1 1).Hdr.Get TOKEN_HEADER = "T" ∧
    doPingRequest urlNoCTL marshalText client0
        [.ok (respOf [(TOKEN_HEADER, "T")] "q" 1 1), .ok (respOf [] "q" 1 1)] "req"
      = ⟨[submitRequest client0 "req", releaseRequest client0 "" ⟨"q", 1, 1, none⟩],
          some (.ok ⟨"q", 1, 1, none⟩)⟩ ∧
    (doPingRequest urlNoCTL marshalText client0
        [.ok (respOf [(TOKEN_HEADER, "T")] "q" 1 1), .ok (respOf [] "q" 1 1)]
        "req").sent.map (fun rq => (rq.Method, rq.Hdr.Has TOKEN_HEADER))
      = [("POST", false), ("DELETE", false)] := by
  decide

end Plugin
